import Mathlib

/-!
RedisRaft snapshot layer: a shallow embedding of `snapshot.c`.

C strings are lists of characters (the characters before the terminating NUL),
machine integers are naturals reduced modulo the width of their C type, and a
C pointer to a linked list is the list itself, the empty list being `NULL`.
-/

namespace RedisRaft

/-- A C string: the characters that precede the terminating NUL. -/
abbrev CStr := List Char

/-- Address of a node: `NodeAddr` of `redisraft.h` (host buffer and port). -/
structure NodeAddr where
  host : CStr
  port : Nat
deriving DecidableEq, Repr

/-- User data attached to a registry node (`Node` of `redisraft.h`): only the
address is read by the snapshot code. -/
structure Node where
  addr : NodeAddr
deriving DecidableEq, Repr

/-- A node of the consensus engine's registry (`raft_node_t`), with the flags
that the snapshot code reads through `raft_node_is_*` and its user data pointer
(`none` is a `NULL` udata). -/
structure RaftNode where
  id : Nat
  active : Bool
  voting : Bool
  voting_committed : Bool
  addition_committed : Bool
  udata : Option Node
deriving DecidableEq, Repr

/-- `SnapshotCfgEntry` without its `next` link: a chain of entries is a list. -/
structure SnapshotCfgEntry where
  id : Nat
  active : Nat
  voting : Nat
  addr : NodeAddr
deriving DecidableEq, Repr

/-- `SnapshotMetadata`; `cfg_entry = []` is the `NULL` chain. -/
structure SnapshotMetadata where
  last_included_term : Nat
  last_included_index : Nat
  cfg_entry : List SnapshotCfgEntry
deriving DecidableEq, Repr

/-- `RedisRaftResult`. -/
inductive RedisRaftResult where
  | RR_OK
  | RR_ERROR
deriving DecidableEq, Repr

/-! ## Encoder -/

/-- What `%u` prints for a 32-bit unsigned argument: the decimal digits. -/
def fmtU (n : Nat) : CStr := Nat.toDigits 10 (n % 2 ^ 32)

/-- The value `raft_node_is_active` and its siblings return for a flag. -/
def flagInt (b : Bool) : Nat := if b then 1 else 0

/-- The text `"%s%u,%u,%u,%s:%u"` formats to in `generateCfgString`. -/
def cfgRecordFmt (sep : CStr) (id active voting : Nat) (na : NodeAddr) : CStr :=
  sep ++ fmtU id ++ [','] ++ fmtU active ++ [','] ++ fmtU voting ++ [','] ++ na.host ++ [':'] ++
    fmtU na.port

/-- Modelled from the spec: `catsnprintf` is absent from src; it appends the
formatted text to the buffer, which grows as needed. -/
def catsnprintf (buf text : CStr) : CStr := buf ++ text

/-- The address `generateCfgString` picks for a registry node: the locally
configured address for the local node, the udata address otherwise, and `none`
where the code runs into `assert(0)`. -/
def pickAddr (nodeid : Nat) (cfgAddr : NodeAddr) (rnode : RaftNode) : Option NodeAddr :=
  if rnode.id = nodeid then some cfgAddr
  else match rnode.udata with
    | some node => some node.addr
    | none => none

/-- The loop of `generateCfgString` over the registry, `buf` being the buffer
built so far; `none` is a failed assertion. -/
def generateCfgLoop (nodeid : Nat) (cfgAddr : NodeAddr) : List RaftNode → CStr → Option CStr
  | [], buf => some buf
  | rnode :: rest, buf =>
    if !rnode.addition_committed then generateCfgLoop nodeid cfgAddr rest buf
    else
      match pickAddr nodeid cfgAddr rnode with
      | none => none
      | some na =>
        generateCfgLoop nodeid cfgAddr rest
          (catsnprintf buf
            (cfgRecordFmt (if buf = [] then [] else [';']) rnode.id (flagInt rnode.active)
              (flagInt rnode.voting_committed) na))

/-- `generateCfgString`: the configuration string of the registry `nodes` of a
server whose own id is `nodeid` and whose configured address is `cfgAddr`. -/
def generateCfgString (nodeid : Nat) (cfgAddr : NodeAddr) (nodes : List RaftNode) : Option CStr :=
  generateCfgLoop nodeid cfgAddr nodes []

/-! ## Decoder -/

/-- The test `*s >= '0' && *s <= '9'`. -/
def isDigit (c : Char) : Bool := decide ('0' ≤ c) && decide (c ≤ '9')

/-- The loop of `consumeInt`, `value` being the `unsigned long` accumulated so
far. The result is the value and the string from the returned pointer on;
`none` is the `NULL` return. -/
def consumeIntLoop : CStr → Nat → Char → Option (Nat × CStr)
  | [], value, _ => some (value, [])
  | c :: s, value, delim =>
    if c = delim then some (value, s)
    else if isDigit c then
      consumeIntLoop s ((value * 10 % 2 ^ 64 + (c.toNat - '0'.toNat)) % 2 ^ 64) delim
    else none

/-- `consumeInt`. -/
def consumeInt (s : CStr) (delim : Char) : Option (Nat × CStr) :=
  consumeIntLoop s 0 delim

/-- One call of `strtok_r` with the single delimiter `delim` on the text that
is left: the token and the text after it, `none` when no token is left. -/
def strtok_r (s : CStr) (delim : Char) : Option (CStr × CStr) :=
  match s.dropWhile (fun c => c == delim) with
  | [] => none
  | c :: t =>
    some ((c :: t).takeWhile (fun c => c != delim),
      ((c :: t).dropWhile (fun c => c != delim)).drop 1)

/-- The body of the loop of `parseCfgString` on one token: three integers, then
the address handed to `NodeAddrParse`. `none` is the jump to `error`. -/
def parseCfgRecord (nodeAddrParse : CStr → Option NodeAddr) (p : CStr) :
    Option SnapshotCfgEntry :=
  match consumeInt p ',' with
  | none => none
  | some (v1, s1) =>
    match consumeInt s1 ',' with
    | none => none
    | some (v2, s2) =>
      match consumeInt s2 ',' with
      | none => none
      | some (v3, s3) =>
        match nodeAddrParse s3 with
        | none => none
        | some addr => some ⟨v1 % 2 ^ 32, v2 % 2 ^ 32, v3 % 2 ^ 32, addr⟩

/-- Outcome of the token loop of `parseCfgString`. -/
inductive CfgLoop where
  | chain (entries : List SnapshotCfgEntry)
  | error
  | fuel
deriving DecidableEq, Repr

/-- The `while (p != NULL)` loop of `parseCfgString` on the text still to be
tokenised. -/
def parseCfgLoop (nodeAddrParse : CStr → Option NodeAddr) : Nat → CStr → CfgLoop
  | 0, _ => .fuel
  | fuel + 1, s =>
    match strtok_r s ';' with
    | none => .chain []
    | some (p, rest) =>
      match parseCfgRecord nodeAddrParse p with
      | none => .error
      | some r =>
        match parseCfgLoop nodeAddrParse fuel rest with
        | .chain l => .chain (r :: l)
        | .error => .error
        | .fuel => .fuel

/-- `parseCfgString`: the chain of entries, `[]` being the `NULL` pointer that
the code returns both for a parse error and for a string without any token.
`NodeAddrParse` is not in src and is a parameter. -/
def parseCfgString (nodeAddrParse : CStr → Option NodeAddr) (str : CStr) :
    List SnapshotCfgEntry :=
  match parseCfgLoop nodeAddrParse (str.length + 1) str with
  | .chain l => l
  | _ => []

/-- The decimal value of a string of digits. -/
def decimalValue (s : CStr) : Nat :=
  s.foldl (fun v c => v * 10 + (c.toNat - '0'.toNat)) 0

/-- Modelled from the spec: NodeAddrParse is absent from src; an address is
text in `host:port` form, a host, a colon and a decimal port. -/
def NodeAddrParse (s : CStr) : Option NodeAddr :=
  match s.dropWhile (fun c => c != ':') with
  | [] => none
  | _ :: port =>
    if port ≠ [] ∧ port.all isDigit = true then
      some ⟨s.takeWhile (fun c => c != ':'), decimalValue port⟩
    else none

/-! ## Server state, host store and consensus engine -/

/-- A call that leaves the module: a command sent to the host store through
`RedisModule_Call`, a reply sent to a client, a primitive of the consensus
engine, or the creation or release of a connection object. -/
inductive Call where
  | hmset (term index : Nat) (cfg : CStr)
  | hgetall
  | info_replication
  | slaveof (host : CStr) (port : Nat)
  | slaveof_no_one
  | raft_begin_snapshot
  | raft_end_snapshot
  | raft_begin_load_snapshot (term index : Nat)
  | raft_end_load_snapshot
  | NodeFree (n : Node)
  | raft_remove_node (id : Nat)
  | NodeInit (id : Nat) (addr : NodeAddr)
  | raft_add_node (id : Nat)
  | raft_add_non_voting_node (id : Nat)
  | raft_node_set_active (id : Nat) (active : Nat)
  | reply_with_error (msg : String)
  | reply_with_simple_string (msg : String)
deriving DecidableEq, Repr

/-- The part of the consensus engine (`raft_server_t`) that the snapshot code
reads: the node registry as an indexed list, the id of the local node, the
current term and the index last applied. -/
structure Raft where
  nodes : List RaftNode
  nodeid : Nat
  current_term : Nat
  last_applied_idx : Nat
deriving DecidableEq, Repr

/-- The snapshot primitives of the consensus engine. Their code is outside this
repository: each is a parameter, giving the value returned and the state of the
engine after the call. -/
structure Engine where
  raft_begin_snapshot : Raft → Int × Raft
  raft_end_snapshot : Raft → Raft
  raft_begin_load_snapshot : Raft → Nat → Nat → Int × Raft
  raft_end_load_snapshot : Raft → Raft

/-- The `__raft_snapshot__` key of the host store: a hash with its fields in
the order `HGETALL` lists them, or a value of another type. A missing key is
the hash without fields. -/
inductive SnapshotKey where
  | hash (fields : List (CStr × CStr))
  | other
deriving DecidableEq, Repr

/-- `RedisRaftCtx`: the engine, the configured address of the local node, the
`loading_snapshot` flag, the host store's snapshot key, and the calls made so
far, oldest first. -/
structure RedisRaftCtx where
  raft : Raft
  config_addr : NodeAddr
  loading_snapshot : Bool
  snapshot_key : SnapshotKey
  calls : List Call
deriving DecidableEq, Repr

/-- Outcome of running code that may fail an assertion or loop: the result, a
failed `assert`, or a step budget that ran out before the code returned. -/
inductive Run (α : Type) where
  | done (a : α)
  | abort
  | fuel
deriving DecidableEq, Repr

/-- Sequencing of two runs. -/
def Run.bind {α β : Type} (r : Run α) (f : α → Run β) : Run β :=
  match r with
  | .done a => f a
  | .abort => .abort
  | .fuel => .fuel

/-- Record a call. -/
def RedisRaftCtx.call (rr : RedisRaftCtx) (c : Call) : RedisRaftCtx :=
  { rr with calls := rr.calls ++ [c] }

/-- The field names of the snapshot key. -/
def last_included_term_name : CStr := "last_included_term".toList

/-- The name of the index field. -/
def last_included_index_name : CStr := "last_included_index".toList

/-- The name of the configuration field. -/
def cfg_name : CStr := "cfg".toList

/-- `HSET` of one field of a hash: the value of an existing field is replaced
in place, a new field is added at the end. -/
def hsetField : List (CStr × CStr) → CStr → CStr → List (CStr × CStr)
  | [], name, value => [(name, value)]
  | (n, v) :: rest, name, value =>
    if n = name then (n, value) :: rest else (n, v) :: hsetField rest name value

/-- The effect of `HMSET __raft_snapshot__ last_included_term t
last_included_index i cfg c` on the key: integers are stored in decimal; a key
of another type is left as it is (the command replies with an error). -/
def hmsetSnapshot (key : SnapshotKey) (term index : Nat) (cfg : CStr) : SnapshotKey :=
  match key with
  | .hash fields =>
    .hash (hsetField (hsetField (hsetField fields last_included_term_name (Nat.toDigits 10 term))
      last_included_index_name (Nat.toDigits 10 index)) cfg_name cfg)
  | .other => .other

/-- `storeSnapshotInfo`; `none` is the `assert(0)` of `generateCfgString`. The
reply of `RedisModule_Call` is never `NULL` for this command. -/
def storeSnapshotInfo (rr : RedisRaftCtx) : Option RedisRaftCtx :=
  match generateCfgString rr.raft.nodeid rr.config_addr rr.raft.nodes with
  | none => none
  | some cfg =>
    let term := rr.raft.current_term % 2 ^ 32
    let index := rr.raft.last_applied_idx % 2 ^ 32
    some { rr with
      snapshot_key := hmsetSnapshot rr.snapshot_key term index cfg
      calls := rr.calls ++ [.hmset term index cfg] }

/-! ## Reading the metadata back -/

/-- The bytes of a buffer seen as a C string: what precedes the first NUL. -/
def cstr (s : CStr) : CStr := s.takeWhile (fun c => c != Char.ofNat 0)

/-- The C library's `isspace` in the C locale. -/
def isSpace (c : Char) : Bool :=
  c == ' ' || (decide (9 ≤ c.toNat) && decide (c.toNat ≤ 13))

/-- The C library's `strtoul(s, &endptr, 10)` for a 64-bit `unsigned long`:
the value and the text at `endptr`. White space and one sign are skipped, the
digits are converted, an overflow yields `ULONG_MAX`, and when there is no
digit `endptr` is the start of the string. -/
def strtoul (s : CStr) : Nat × CStr :=
  let s1 := s.dropWhile isSpace
  let neg := s1.head? = some '-'
  let s2 := if s1.head? = some '-' ∨ s1.head? = some '+' then s1.drop 1 else s1
  let digits := s2.takeWhile isDigit
  if digits = [] then (0, s)
  else
    let v := decimalValue digits
    let v1 := if 2 ^ 64 ≤ v then 2 ^ 64 - 1 else if neg then (2 ^ 64 - v) % 2 ^ 64 else v
    (v1, s2.dropWhile isDigit)

/-- The `for` loop of `loadSnapshotInfo` over the name/value pairs of the
reply, `md` being `*result` so far. The two integer branches leave the loop
through `goto exit` with `ret` still `RR_OK`; the `cfg` branch sets `RR_ERROR`
first. -/
def loadSnapshotFields (nodeAddrParse : CStr → Option NodeAddr) :
    List (CStr × CStr) → SnapshotMetadata → RedisRaftResult × SnapshotMetadata
  | [], md => (.RR_OK, md)
  | (name, value) :: rest, md =>
    if cstr name = last_included_term_name then
      let md1 := { md with last_included_term := (strtoul (cstr value)).1 % 2 ^ 32 }
      if (strtoul (cstr value)).2 ≠ [] then (.RR_OK, md1)
      else loadSnapshotFields nodeAddrParse rest md1
    else if cstr name = last_included_index_name then
      let md1 := { md with last_included_index := (strtoul (cstr value)).1 % 2 ^ 32 }
      if (strtoul (cstr value)).2 ≠ [] then (.RR_OK, md1)
      else loadSnapshotFields nodeAddrParse rest md1
    else if name = cfg_name then
      let md1 := { md with cfg_entry := parseCfgString nodeAddrParse (cstr value) }
      if md1.cfg_entry = [] then (.RR_ERROR, md1)
      else loadSnapshotFields nodeAddrParse rest md1
    else loadSnapshotFields nodeAddrParse rest md

/-- `loadSnapshotInfo`, started on the zeroed metadata of `loadSnapshot`: the
result code, the metadata, and the context with the `HGETALL` recorded. -/
def loadSnapshotInfo (nodeAddrParse : CStr → Option NodeAddr) (rr : RedisRaftCtx) :
    RedisRaftResult × SnapshotMetadata × RedisRaftCtx :=
  match rr.snapshot_key with
  | .other => (.RR_ERROR, ⟨0, 0, []⟩, rr.call .hgetall)
  | .hash fields =>
    ((loadSnapshotFields nodeAddrParse fields ⟨0, 0, []⟩).1,
      (loadSnapshotFields nodeAddrParse fields ⟨0, 0, []⟩).2, rr.call .hgetall)

/-! ## Creating a snapshot -/

/-- `performSnapshot`. -/
def performSnapshot (E : Engine) (rr : RedisRaftCtx) : Run (RedisRaftResult × RedisRaftCtx) :=
  let rr1 := { rr with raft := (E.raft_begin_snapshot rr.raft).2
                       calls := rr.calls ++ [.raft_begin_snapshot] }
  if (E.raft_begin_snapshot rr.raft).1 < 0 then .done (.RR_ERROR, rr1)
  else
    match storeSnapshotInfo rr1 with
    | none => .abort
    | some rr2 =>
      .done (.RR_OK, { rr2 with raft := E.raft_end_snapshot rr2.raft
                                calls := rr2.calls ++ [.raft_end_snapshot] })

/-- `handleCompact`. -/
def handleCompact (E : Engine) (rr : RedisRaftCtx) : Run RedisRaftCtx :=
  (performSnapshot E rr).bind fun res =>
    if res.1 ≠ .RR_OK then
      .done (res.2.call (.reply_with_error "ERR operation failed, nothing to compact?"))
    else .done (res.2.call (.reply_with_simple_string "OK"))

/-! ## Loading a snapshot -/

/-- Modelled from the spec: the engine's `raft_remove_node` is outside src; the
registry is an indexed list from which it deletes the given node, here the one
at index `i`, the nodes after it moving down by one. -/
def raft_remove_node (raft : Raft) (i : Nat) : Raft :=
  { raft with nodes := raft.nodes.eraseIdx i }

/-- The `for` loop of `removeAllNodes` from index `i` on: after a removal `i`
still advances. -/
def removeAllNodesLoop : Nat → Nat → RedisRaftCtx → Run RedisRaftCtx
  | 0, _, _ => .fuel
  | fuel + 1, i, rr =>
    if i < rr.raft.nodes.length then
      match rr.raft.nodes.get? i with
      | none => .abort
      | some rn =>
        if rn.id = rr.raft.nodeid then removeAllNodesLoop fuel (i + 1) rr
        else
          let rr1 := match rn.udata with
            | some n => rr.call (.NodeFree n)
            | none => rr
          removeAllNodesLoop fuel (i + 1)
            { rr1 with raft := raft_remove_node rr1.raft i
                       calls := rr1.calls ++ [.raft_remove_node rn.id] }
    else .done rr

/-- `removeAllNodes`. The loop takes at most one step per node. -/
def removeAllNodes (rr : RedisRaftCtx) : Run RedisRaftCtx :=
  removeAllNodesLoop (rr.raft.nodes.length + 1) 0 rr

/-- The connection object `NodeInit` creates for a node id and address. -/
def NodeInit (_id : Nat) (addr : NodeAddr) : Node := ⟨addr⟩

/-- Modelled from the spec: the engine's `raft_add_node` is outside src; it
registers a voting node at the end of the registry, and returns `NULL`, here
`none`, for an id that is already registered. -/
def raft_add_node (raft : Raft) (udata : Node) (id : Nat) : Option Raft :=
  if raft.nodes.any (fun n => n.id == id) then none
  else some { raft with nodes := raft.nodes ++ [⟨id, false, true, false, false, some udata⟩] }

/-- Modelled from the spec: the engine's `raft_add_non_voting_node` is outside
src; as `raft_add_node`, for a node that does not vote. -/
def raft_add_non_voting_node (raft : Raft) (udata : Node) (id : Nat) : Option Raft :=
  if raft.nodes.any (fun n => n.id == id) then none
  else some { raft with nodes := raft.nodes ++ [⟨id, false, false, false, false, some udata⟩] }

/-- Modelled from the spec: the engine's `raft_node_set_active` is outside src;
it marks the node with the given id active when the argument is not zero. -/
def raft_node_set_active (raft : Raft) (id : Nat) (active : Nat) : Raft :=
  { raft with nodes := raft.nodes.map fun n =>
      if n.id = id then { n with active := decide (active ≠ 0) } else n }

/-- The `while (cfg != NULL)` loop of `loadSnapshotNodes`. On the entry of the
local id the code runs `continue` and `cfg` is not advanced. -/
def loadSnapshotNodes : Nat → RedisRaftCtx → List SnapshotCfgEntry → Run RedisRaftCtx
  | 0, _, _ => .fuel
  | _ + 1, rr, [] => .done rr
  | fuel + 1, rr, cfg :: next =>
    if cfg.id = rr.raft.nodeid then loadSnapshotNodes fuel rr (cfg :: next)
    else
      let rr1 := rr.call (.NodeInit cfg.id cfg.addr)
      let n := NodeInit cfg.id cfg.addr
      let rn := if cfg.voting ≠ 0 then raft_add_node rr1.raft n cfg.id
        else raft_add_non_voting_node rr1.raft n cfg.id
      let rr2 := rr1.call (if cfg.voting ≠ 0 then .raft_add_node cfg.id
        else .raft_add_non_voting_node cfg.id)
      match rn with
      | none => .abort
      | some raft1 =>
        loadSnapshotNodes fuel
          { rr2 with raft := raft_node_set_active raft1 cfg.id cfg.active
                     calls := rr2.calls ++ [.raft_node_set_active cfg.id cfg.active] }
          next

/-- `loadSnapshot`, with `fuel` steps for the loop of `loadSnapshotNodes`. -/
def loadSnapshot (E : Engine) (nodeAddrParse : CStr → Option NodeAddr) (fuel : Nat)
    (rr : RedisRaftCtx) : Run RedisRaftCtx :=
  let info := loadSnapshotInfo nodeAddrParse rr
  let metadata := info.2.1
  let rr1 := info.2.2
  if info.1 ≠ .RR_OK ∨ metadata.cfg_entry = [] then .done rr1
  else
    let began := E.raft_begin_load_snapshot rr1.raft metadata.last_included_term
      metadata.last_included_index
    let rr2 := { rr1 with
      raft := began.2
      calls := rr1.calls ++ [.raft_begin_load_snapshot metadata.last_included_term
        metadata.last_included_index] }
    if began.1 ≠ 0 then .done rr2
    else
      (removeAllNodes rr2).bind fun rr3 =>
        (loadSnapshotNodes fuel rr3 metadata.cfg_entry).bind fun rr4 =>
          .done { rr4 with raft := E.raft_end_load_snapshot rr4.raft
                           calls := rr4.calls ++ [.raft_end_load_snapshot] }

/-! ## The replication handshake -/

/-- One step of the line iterator over the replication report. -/
inductive InfoStep where
  | line (key val : CStr)
  | failure
deriving DecidableEq, Repr

/-- Modelled from the spec: RedisInfoIterate is absent from src; over the
report, a sequence of `key: value` lines, it yields the next line (return value
1), stops at the end of the report (0) or reports a parsing failure (-1). The
report is given as the steps the iterator takes on it; the result is the return
value, the key and value, and the steps that are left. -/
def RedisInfoIterate : List InfoStep → Int × CStr × CStr × List InfoStep
  | [] => (0, [], [], [])
  | .line key val :: rest => (1, key, val, rest)
  | .failure :: rest => (-1, [], [], rest)

/-- The key `_master_link_status` of `checkLoadSnapshotProgress`. -/
def master_link_status : CStr := "master_link_status".toList

/-- The key `_master_sync_in_progress` of `checkLoadSnapshotProgress`. -/
def master_sync_in_progress : CStr := "master_sync_in_progress".toList

/-- The `while` loop of `checkLoadSnapshotProgress` over the report, on the
pair `(link_status_up, sync_in_progress)`; a parsing failure leaves the loop
through `goto exit` with the flags as they are. -/
def infoLoop : List InfoStep → Bool × Bool → Bool × Bool
  | [], flags => flags
  | step :: rest, flags =>
    let it := RedisInfoIterate (step :: rest)
    if it.1 = 0 then flags
    else if it.1 = -1 then flags
    else if it.2.1 = master_link_status ∧ it.2.2.1 = "up".toList then
      infoLoop rest (true, flags.2)
    else if it.2.1 = master_sync_in_progress ∧ it.2.2.1 = "0".toList then
      infoLoop rest (flags.1, false)
    else infoLoop rest flags

/-- `checkLoadSnapshotProgress` on the report the host store answers `INFO
replication` with. -/
def checkLoadSnapshotProgress (E : Engine) (nodeAddrParse : CStr → Option NodeAddr)
    (fuel : Nat) (report : List InfoStep) (rr : RedisRaftCtx) : Run RedisRaftCtx :=
  let rr1 := rr.call .info_replication
  let flags := infoLoop report (false, true)
  if flags.1 = true ∧ flags.2 = false then
    (loadSnapshot E nodeAddrParse fuel (rr1.call .slaveof_no_one)).bind fun rr2 =>
      .done { rr2 with loading_snapshot := false }
  else .done rr1

/-- The reply of the host store to the `SLAVEOF host port` command. -/
inductive SlaveofReply where
  | null
  | error
  | accepted
deriving DecidableEq, Repr

/-- `handleLoadSnapshot` for a request naming `addr`, `reply` being what the
host store answers. -/
def handleLoadSnapshot (reply : SlaveofReply) (addr : NodeAddr) (rr : RedisRaftCtx) :
    RedisRaftCtx :=
  let rr1 := rr.call (.slaveof addr.host addr.port)
  if reply = .null ∨ reply = .error then rr1
  else { rr1 with loading_snapshot := true }

/-! ## Definitions used to state the properties -/

/-- Mapping the result of a run. -/
def Run.map {α β : Type} (f : α → β) (r : Run α) : Run β :=
  r.bind fun a => .done (f a)

/-- The address under which a registry node is encoded: the address
`generateCfgString` picks, with an empty address standing in where the code
would fail its assertion. -/
def nodeAddr (nodeid : Nat) (cfgAddr : NodeAddr) (n : RaftNode) : NodeAddr :=
  (pickAddr nodeid cfgAddr n).getD ⟨[], 0⟩

/-- The record `id,active,voting,host:port` of a registry node, as the
specification words it. -/
def encodeRecord (nodeid : Nat) (cfgAddr : NodeAddr) (n : RaftNode) : CStr :=
  fmtU n.id ++ [','] ++ fmtU (flagInt n.active) ++ [','] ++ fmtU (flagInt n.voting_committed) ++
    [','] ++ (nodeAddr nodeid cfgAddr n).host ++ [':'] ++ fmtU (nodeAddr nodeid cfgAddr n).port

/-- The encoding as the specification words it: one record for each node whose
addition is committed, in registry order, joined with `;`. -/
def encodeSpec (nodeid : Nat) (cfgAddr : NodeAddr) (nodes : List RaftNode) : CStr :=
  [';'].intercalate
    ((nodes.filter (fun n => n.addition_committed)).map (encodeRecord nodeid cfgAddr))

/-- Appending records to a buffer the way the loop of the encoder does. -/
def appendRecords (buf : CStr) (rs : List CStr) : CStr :=
  rs.foldl (fun b r => b ++ ((if b = [] then [] else [';']) ++ r)) buf

/-- The tuple (id, active, voting, host, port) of a registry node, as a
configuration entry. -/
def cfgEntryOf (nodeid : Nat) (cfgAddr : NodeAddr) (n : RaftNode) : SnapshotCfgEntry :=
  ⟨n.id, flagInt n.active, flagInt n.voting_committed, nodeAddr nodeid cfgAddr n⟩

/-- The tokens `strtok_r` finds: the pieces between `;` that are not empty. -/
def cfgTokens (s : CStr) : List CStr := (s.splitOn ';').filter (fun r => r ≠ [])

/-- Decoding every token in turn, failing as soon as one record fails. -/
def parseTokens (nodeAddrParse : CStr → Option NodeAddr) :
    List CStr → Option (List SnapshotCfgEntry)
  | [] => some []
  | t :: ts =>
    match parseCfgRecord nodeAddrParse t with
    | none => none
    | some r =>
      match parseTokens nodeAddrParse ts with
      | none => none
      | some l => some (r :: l)

/-- The text after the first `,` of a string, empty when there is none. -/
def afterComma (s : CStr) : CStr := (s.dropWhile (fun c => c != ',')).drop 1

/-- The text before the first `,` of a string. -/
def firstField (s : CStr) : CStr := s.takeWhile (fun c => c != ',')

/-- The `k`-th comma-separated field of a record, counted from 0. -/
def cfgField : Nat → CStr → CStr
  | 0, record => firstField record
  | k + 1, record => cfgField k (afterComma record)

/-- The address part of a record: the text after its third `,`. -/
def cfgAddrPart (record : CStr) : CStr := afterComma (afterComma (afterComma record))

/-- A record that is missing one of its three `,` delimiters. -/
abbrev missingDelimiter (record : CStr) : Prop := record.count ',' < 3

/-- A record with a character that is not a digit in one of its three integer
fields. -/
abbrev badInteger (record : CStr) : Prop :=
  ∃ k, k < 3 ∧ ∃ c ∈ cfgField k record, isDigit c = false

/-- A malformed record: a missing delimiter, a bad integer field, or an
address that the address parser rejects. -/
abbrev badRecord (nodeAddrParse : CStr → Option NodeAddr) (record : CStr) : Prop :=
  missingDelimiter record ∨ badInteger record ∨ nodeAddrParse (cfgAddrPart record) = none

/-- The report has the line `master_link_status:up`. -/
def linkUp (report : List InfoStep) : Prop :=
  InfoStep.line master_link_status "up".toList ∈ report

/-- The report has the line `master_sync_in_progress:0`. -/
def syncDone (report : List InfoStep) : Prop :=
  InfoStep.line master_sync_in_progress "0".toList ∈ report

instance (report : List InfoStep) : Decidable (linkUp report) :=
  inferInstanceAs (Decidable (InfoStep.line master_link_status "up".toList ∈ report))

instance (report : List InfoStep) : Decidable (syncDone report) :=
  inferInstanceAs (Decidable (InfoStep.line master_sync_in_progress "0".toList ∈ report))

/-! ## Sample data -/

/-- An engine that accepts every snapshot request and leaves its state alone. -/
def acceptingEngine : Engine :=
  ⟨fun r => (0, r), fun r => r, fun r _ _ => (0, r), fun r => r⟩

/-- An engine that refuses every snapshot request. -/
def refusingEngine : Engine :=
  ⟨fun r => (-1, r), fun r => r, fun r _ _ => (-1, r), fun r => r⟩

/-- The configured address of the local node in the samples. -/
def selfAddr : NodeAddr := ⟨"self".toList, 5001⟩

/-- The registry entry of the local node, id 1, which carries no udata. -/
def localNode : RaftNode := ⟨1, true, true, true, true, none⟩

/-- The registry entry of a peer. -/
def peerNode (id : Nat) (committed : Bool) : RaftNode :=
  ⟨id, true, true, true, committed, some ⟨⟨"peer".toList, 5000 + id⟩⟩⟩

/-- A server with local id 1, term 5, index 7 applied, a load in progress, the
given registry and the given fields in its snapshot key. -/
def sampleCtx (nodes : List RaftNode) (fields : List (CStr × CStr)) : RedisRaftCtx :=
  ⟨⟨nodes, 1, 5, 7⟩, selfAddr, true, .hash fields, []⟩

/-- A well-formed metadata record naming node 4 as a non-voting member. -/
def sampleFields : List (CStr × CStr) :=
  [(last_included_term_name, "12".toList), (last_included_index_name, "9".toList),
    (cfg_name, "4,1,0,peer:5004".toList)]

/-- A poll that shows the link up and the transfer still in progress. -/
def pollSyncing : List InfoStep :=
  [.line master_link_status "up".toList, .line master_sync_in_progress "1".toList]

/-- A poll that shows the link up and the transfer done. -/
def pollSynced : List InfoStep :=
  [.line master_link_status "up".toList, .line master_sync_in_progress "0".toList]

/-! ## Forwarding to the leader (`proxy.c`) -/

/-- A reply of the leader (`redisReply` of hiredis): the tag with its payload;
`other` is a node whose `type` is none of the six tags the code knows. -/
inductive redisReply where
  | string (str : CStr)
  | array (element : List redisReply)
  | integer (integer : Int)
  | nil
  | status (str : CStr)
  | error (str : CStr)
  | other (type : Nat)
deriving Repr

/-- A `RedisModule_ReplyWith...` call on the client's context. -/
inductive ModuleReply where
  | ReplyWithStringBuffer (str : CStr)
  | ReplyWithArray (len : Nat)
  | ReplyWithLongLong (ll : Int)
  | ReplyWithNull
  | ReplyWithSimpleString (msg : CStr)
  | ReplyWithError (msg : CStr)
deriving DecidableEq, Repr

/-- A call made by the forwarding code: a reply to the client, a command sent
to the leader, or the release of the request. -/
inductive ProxyCall where
  | reply (r : ModuleReply)
  | redisAsyncCommand
  | RaftReqFree
deriving DecidableEq, Repr

/-- The error text sent in place of a reply that cannot be translated. -/
def bad_reply_msg : CStr := "ERR bad reply from leader".toList

/-- The error text sent when the connection dropped before a reply. -/
def timeout_msg : CStr := "TIMEOUT no reply from leader".toList

mutual
/-- `hiredisReplyToModule`: the status returned and the replies emitted, in
order. -/
def hiredisReplyToModule : redisReply → RedisRaftResult × List ModuleReply
  | .string str => (.RR_OK, [.ReplyWithStringBuffer str])
  | .array element =>
    (.RR_OK, .ReplyWithArray element.length :: hiredisReplyElements element)
  | .integer i => (.RR_OK, [.ReplyWithLongLong i])
  | .nil => (.RR_OK, [.ReplyWithNull])
  | .status str => (.RR_OK, [.ReplyWithSimpleString str])
  | .error str => (.RR_OK, [.ReplyWithError str])
  | .other _ => (.RR_ERROR, [])
/-- The `for` loop of `hiredisReplyToModule` over the elements of an array. -/
def hiredisReplyElements : List redisReply → List ModuleReply
  | [] => []
  | r :: rest =>
    (hiredisReplyToModule r).2 ++
      (if (hiredisReplyToModule r).1 ≠ .RR_OK then [.ReplyWithError bad_reply_msg] else []) ++
      hiredisReplyElements rest
end

/-- `handleProxiedCommandResponse` on the reply `r` of the leader, `none` being
the `NULL` reply of a dropped connection. -/
def handleProxiedCommandResponse (r : Option redisReply) : List ProxyCall :=
  match r with
  | none => [.reply (.ReplyWithError timeout_msg), .RaftReqFree]
  | some reply =>
    List.map ProxyCall.reply
      ((hiredisReplyToModule reply).2 ++
        (if (hiredisReplyToModule reply).1 ≠ .RR_OK then [ModuleReply.ReplyWithError bad_reply_msg]
          else [])) ++ [.RaftReqFree]

/-! ## The entry cache (`entrycache.h`) -/

/-- A log entry as the cache holds it (`raft_entry_t`): an identity and the
size of its payload. -/
structure raft_entry_t where
  id : Nat
  data_len : Nat
deriving DecidableEq, Repr

/-- The structure `EntryCache` of `entrycache.h`: `ptrs` is the backing array
of `size` slots, an empty slot being `none`; the entry of log index
`start_idx + k` is in slot `(start + k) % size`. -/
structure EntryCache where
  size : Nat
  len : Nat
  start_idx : Nat
  start : Nat
  entries_memsize : Nat
  ptrs : List (Option raft_entry_t)
deriving DecidableEq, Repr

/-- The payload size of what a slot holds. -/
def slotSize : Option raft_entry_t → Nat
  | some e => e.data_len
  | none => 0

/-- The slots of the cached window, oldest first. -/
def cacheWindow (c : EntryCache) : List (Option raft_entry_t) :=
  (List.range c.len).map fun k => c.ptrs.getD ((c.start + k) % c.size) none

/-- Modelled from the spec: EntryCacheGet is absent from src; it returns the
cached entry if `start_idx ≤ index < start_idx + len` and reports a miss,
`none`, otherwise. -/
def EntryCacheGet (c : EntryCache) (idx : Nat) : Option raft_entry_t :=
  if idx < c.start_idx ∨ c.start_idx + c.len ≤ idx then none
  else c.ptrs.getD ((c.start + (idx - c.start_idx)) % c.size) none

/-- Modelled from the spec: the growth step of EntryCacheAppend is absent from
src; the backing array doubles its capacity (an array without slots gets one)
and the window is laid out from slot 0. -/
def EntryCacheGrow (c : EntryCache) : EntryCache :=
  { c with
    size := if c.size = 0 then 1 else 2 * c.size
    start := 0
    ptrs := cacheWindow c ++
      List.replicate ((if c.size = 0 then 1 else 2 * c.size) - c.len) none }

/-- Modelled from the spec: the store step of EntryCacheAppend is absent from
src; the entry goes into the slot after the tail of the window and its payload
size is added to the byte total. -/
def EntryCacheStore (c : EntryCache) (ety : raft_entry_t) : EntryCache :=
  { c with
    ptrs := c.ptrs.set ((c.start + c.len) % c.size) (some ety)
    len := c.len + 1
    entries_memsize := c.entries_memsize + ety.data_len }

/-- Modelled from the spec: EntryCacheAppend is absent from src; an append is
accepted only if `index == start_idx + len` and fails fast, `none`, otherwise;
it grows the backing array when full, then stores the entry. -/
def EntryCacheAppend (c : EntryCache) (ety : raft_entry_t) (idx : Nat) : Option EntryCache :=
  if idx ≠ c.start_idx + c.len then none
  else some (EntryCacheStore (if c.len = c.size then EntryCacheGrow c else c) ety)

/-- Modelled from the spec: the eviction step is absent from src; the oldest
entry leaves the cache, its slot is cleared, `start_idx` advances and the byte
total is decremented by its payload size. -/
def EntryCacheEvictHead (c : EntryCache) : EntryCache :=
  { c with
    ptrs := c.ptrs.set (c.start % c.size) none
    start := (c.start + 1) % c.size
    start_idx := c.start_idx + 1
    len := c.len - 1
    entries_memsize := c.entries_memsize - slotSize (c.ptrs.getD (c.start % c.size) none) }

/-- Modelled from the spec: the loop of EntryCacheCompact is absent from src;
`n` being the count evicted so far, it evicts from the head while the byte
total exceeds `max_memory` and more than one entry is cached, so that a single
entry that alone exceeds the budget remains. Each step removes one entry, so
`len` steps suffice. -/
def compactLoop : Nat → EntryCache → Nat → Nat → Nat × EntryCache
  | 0, c, _, n => (n, c)
  | fuel + 1, c, max_memory, n =>
    if 1 < c.len ∧ max_memory < c.entries_memsize then
      compactLoop fuel (EntryCacheEvictHead c) max_memory (n + 1)
    else (n, c)

/-- Modelled from the spec: EntryCacheCompact is absent from src; it repeatedly
evicts from the head, never from the tail, while the byte total exceeds
`max_memory`, and returns the count evicted; after it returns the byte total is
at most `max_memory` unless a single entry alone exceeds it, in which case
exactly that entry remains. -/
def EntryCacheCompact (c : EntryCache) (max_memory : Nat) : Nat × EntryCache :=
  compactLoop c.len c max_memory 0

/-! ## Further definitions used to state the properties -/

/-- A reply value as the client receives it. -/
inductive ClientReply where
  | string (str : CStr)
  | array (element : List ClientReply)
  | integer (integer : Int)
  | null
  | status (msg : CStr)
  | error (msg : CStr)
deriving Repr

mutual
/-- The calls that build a client reply value: an array is its header followed
by its elements in order. -/
def replyCalls : ClientReply → List ModuleReply
  | .string str => [.ReplyWithStringBuffer str]
  | .array element => .ReplyWithArray element.length :: replyCallsList element
  | .integer i => [.ReplyWithLongLong i]
  | .null => [.ReplyWithNull]
  | .status msg => [.ReplyWithSimpleString msg]
  | .error msg => [.ReplyWithError msg]
/-- The calls that build a sequence of client reply values. -/
def replyCallsList : List ClientReply → List ModuleReply
  | [] => []
  | v :: rest => replyCalls v ++ replyCallsList rest
end

mutual
/-- The client value with the tags, payloads and element order of a leader
reply; a node of unknown tag becomes the error `ERR bad reply from leader`. -/
def toClient : redisReply → ClientReply
  | .string str => .string str
  | .array element => .array (toClientList element)
  | .integer i => .integer i
  | .nil => .null
  | .status str => .status str
  | .error str => .error str
  | .other _ => .error bad_reply_msg
/-- The function `toClient` on the elements of an array. -/
def toClientList : List redisReply → List ClientReply
  | [] => []
  | r :: rest => toClient r :: toClientList rest
end

mutual
/-- The tree has a node of unknown tag, at the top or nested in arrays. -/
def hasUnknownTag : redisReply → Bool
  | .array element => hasUnknownTagList element
  | .other _ => true
  | _ => false
/-- One of the trees has a node of unknown tag. -/
def hasUnknownTagList : List redisReply → Bool
  | [] => false
  | r :: rest => hasUnknownTag r || hasUnknownTagList rest
end

/-- The number of element values a reply call announces. -/
def announced : ModuleReply → Nat
  | .ReplyWithArray len => len
  | _ => 0

/-- The number of values still owed after the calls, `k` being owed before
them; `none` when a call comes after the last owed value is complete. -/
def pendingAfter : List ModuleReply → Nat → Option Nat
  | [], k => some k
  | _ :: _, 0 => none
  | c :: rest, k + 1 => pendingAfter rest (k + announced c)

/-- The calls form exactly one complete reply value. -/
def oneCompleteReply (calls : List ModuleReply) : Prop := pendingAfter calls 1 = some 0

instance (calls : List ModuleReply) : Decidable (oneCompleteReply calls) :=
  inferInstanceAs (Decidable (pendingAfter calls 1 = some 0))

/-- The replies to the client among the calls of the forwarding code. -/
def clientReplies : List ProxyCall → List ModuleReply
  | [] => []
  | .reply r :: rest => r :: clientReplies rest
  | _ :: rest => clientReplies rest

/-- The three fields `loadSnapshotInfo` looks for. -/
inductive FieldKind where
  | term
  | index
  | cfg
deriving DecidableEq, Repr

/-- The field a name selects in `loadSnapshotInfo`, `none` for a name the loop
ignores. -/
def fieldKind (name : CStr) : Option FieldKind :=
  if cstr name = last_included_term_name then some .term
  else if cstr name = last_included_index_name then some .index
  else if name = cfg_name then some .cfg
  else none

/-- The field has one of the three names `loadSnapshotInfo` looks for. -/
def knownField (f : CStr × CStr) : Bool := (fieldKind f.1).isSome

/-- The value of the field is well formed: an integer field is read by
`strtoul` to its end, a `cfg` field decodes to a chain. -/
def validField (nodeAddrParse : CStr → Option NodeAddr) (f : CStr × CStr) : Prop :=
  match fieldKind f.1 with
  | some .term => (strtoul (cstr f.2)).2 = []
  | some .index => (strtoul (cstr f.2)).2 = []
  | some .cfg => parseCfgString nodeAddrParse (cstr f.2) ≠ []
  | none => True

instance (nodeAddrParse : CStr → Option NodeAddr) (f : CStr × CStr) :
    Decidable (validField nodeAddrParse f) := by
  unfold validField
  cases fieldKind f.1 with
  | none => exact inferInstanceAs (Decidable True)
  | some k => cases k <;> infer_instance

/-- What a well-formed field stores in the metadata. -/
def applyField (nodeAddrParse : CStr → Option NodeAddr) (md : SnapshotMetadata)
    (f : CStr × CStr) : SnapshotMetadata :=
  match fieldKind f.1 with
  | some .term => { md with last_included_term := (strtoul (cstr f.2)).1 % 2 ^ 32 }
  | some .index => { md with last_included_index := (strtoul (cstr f.2)).1 % 2 ^ 32 }
  | some .cfg => { md with cfg_entry := parseCfgString nodeAddrParse (cstr f.2) }
  | none => md

/-- The pairs of `sampleFields` in another order, with a field of another name
in between. -/
def shuffledFields : List (CStr × CStr) :=
  [(cfg_name, "4,1,0,peer:5004".toList), ("comment".toList, "x".toList),
    (last_included_index_name, "9".toList), (last_included_term_name, "12".toList)]

/-- The text of a string before the first occurrence of `d`, the whole string
when `d` does not occur. -/
def textBefore (d : Char) (s : CStr) : CStr := s.takeWhile (fun c => c != d)

/-- The text of a string after the first occurrence of `d`, empty when `d`
does not occur. -/
def textAfter (d : Char) (s : CStr) : CStr := (s.dropWhile (fun c => c != d)).drop 1

/-- The invariants of the data model: the backing array has `size` slots,
`len` is at most the capacity, and the byte total is the sum of the payload
sizes of the cached entries. -/
def EntryCache.WF (c : EntryCache) : Prop :=
  c.ptrs.length = c.size ∧ c.len ≤ c.size ∧
    c.entries_memsize = ((cacheWindow c).map slotSize).sum

instance (c : EntryCache) : Decidable c.WF :=
  inferInstanceAs (Decidable (_ ∧ _ ∧ _))

/-- A sequence of valid appends: each entry is appended at `start_idx + len`. -/
def EntryCacheAppendAll : EntryCache → List raft_entry_t → Option EntryCache
  | c, [] => some c
  | c, e :: es =>
    match EntryCacheAppend c e (c.start_idx + c.len) with
    | none => none
    | some c1 => EntryCacheAppendAll c1 es

/-- A full cache of two slots whose window, log indices 7 and 8, wraps around
the end of the backing array. -/
def wrappedCache : EntryCache :=
  ⟨2, 2, 7, 1, 30, [some ⟨8, 20⟩, some ⟨7, 10⟩]⟩

/-! ## Lemmas -/

theorem digitChar_facts : ∀ d, d < 10 →
    isDigit (Nat.digitChar d) = true ∧ (Nat.digitChar d).toNat - '0'.toNat = d ∧
      Nat.digitChar d ≠ ',' ∧ Nat.digitChar d ≠ ';' ∧ Nat.digitChar d ≠ ':' := by
  decide

theorem consumeIntLoop_toDigitsCore (rest : CStr) :
    ∀ (fuel n : Nat) (ds : CStr), n < fuel → n < 2 ^ 64 →
      consumeIntLoop (Nat.toDigitsCore 10 fuel n ds ++ rest) 0 ',' =
        consumeIntLoop (ds ++ rest) n ',' := by
  intro fuel
  induction fuel with
  | zero => intro n ds h; omega
  | succ fuel ih =>
    intro n ds hf hn
    obtain ⟨hd, hv, hc, -, -⟩ := digitChar_facts (n % 10) (Nat.mod_lt _ (by decide))
    unfold Nat.toDigitsCore
    by_cases h0 : n / 10 = 0
    · simp only [h0, if_true, List.cons_append]
      rw [consumeIntLoop, if_neg hc, if_pos hd, hv]
      have : n % 10 = n := Nat.mod_eq_of_lt (by omega)
      congr 1
      omega
    · simp only [h0, if_false]
      rw [ih (n / 10) _ (by omega) (by omega), List.cons_append, consumeIntLoop, if_neg hc,
        if_pos hd, hv]
      congr 1
      omega

theorem consumeInt_fmtU (n : Nat) (rest : CStr) :
    consumeInt (fmtU n ++ ',' :: rest) ',' = some (n % 2 ^ 32, rest) := by
  unfold consumeInt fmtU Nat.toDigits
  rw [consumeIntLoop_toDigitsCore _ _ _ _ (Nat.lt_succ_self _)
    (lt_trans (Nat.mod_lt _ (by decide)) (by decide))]
  simp [consumeIntLoop]

theorem toDigitsCore_digits :
    ∀ (fuel n : Nat) (ds : CStr) (c : Char), c ∈ Nat.toDigitsCore 10 fuel n ds →
      c ∈ ds ∨ ∃ d, d < 10 ∧ c = Nat.digitChar d := by
  intro fuel
  induction fuel with
  | zero => intro n ds c h; left; simpa [Nat.toDigitsCore] using h
  | succ fuel ih =>
    intro n ds c h
    unfold Nat.toDigitsCore at h
    by_cases h0 : n / 10 = 0
    · simp only [h0, if_true, List.mem_cons] at h
      rcases h with h | h
      · right; exact ⟨n % 10, Nat.mod_lt _ (by decide), h⟩
      · left; exact h
    · simp only [h0, if_false] at h
      rcases ih _ _ _ h with h | h
      · rcases List.mem_cons.1 h with h | h
        · right; exact ⟨n % 10, Nat.mod_lt _ (by decide), h⟩
        · left; exact h
      · right; exact h

theorem fmtU_digit (n : Nat) (c : Char) (h : c ∈ fmtU n) :
    isDigit c = true ∧ c ≠ ',' ∧ c ≠ ';' ∧ c ≠ ':' := by
  rcases toDigitsCore_digits _ _ _ _ h with h | ⟨d, hd, rfl⟩
  · simp at h
  · obtain ⟨h1, -, h2, h3, h4⟩ := digitChar_facts d hd
    exact ⟨h1, h2, h3, h4⟩

theorem toDigitsCore_ne_nil (fuel n : Nat) (ds : CStr) :
    Nat.toDigitsCore 10 (fuel + 1) n ds ≠ [] := by
  induction fuel generalizing n ds with
  | zero =>
    unfold Nat.toDigitsCore
    by_cases h0 : n / 10 = 0 <;> simp [h0, Nat.toDigitsCore]
  | succ fuel ih =>
    unfold Nat.toDigitsCore
    by_cases h0 : n / 10 = 0
    · simp [h0]
    · simp only [h0, if_false]; exact ih _ _

theorem fmtU_ne_nil (n : Nat) : fmtU n ≠ [] := toDigitsCore_ne_nil _ _ _

theorem splitOn_semicolon (t : CStr) :
    t.splitOn ';' = t.takeWhile (fun c => c != ';') ::
      (match t.dropWhile (fun c => c != ';') with
        | [] => []
        | _ :: u => u.splitOn ';') := by
  induction t with
  | nil => simp [List.splitOn, List.splitOnP_nil]
  | cons c t ih =>
    by_cases hc : c = ';'
    · subst hc
      simp [List.splitOn, List.splitOnP_cons]
    · have h1 : (c == ';') = false := by simpa using hc
      have h2 : (c != ';') = true := by simpa using hc
      simp only [List.splitOn] at ih ⊢
      rw [List.splitOnP_cons, ih]
      simp [h1, h2, List.modifyHead]

theorem strtok_r_tokens (s : CStr) :
    match cfgTokens s with
    | [] => strtok_r s ';' = none
    | tok :: toks => ∃ rest, strtok_r s ';' = some (tok, rest) ∧ cfgTokens rest = toks ∧
        rest.length < s.length := by
  induction s with
  | nil => simp [cfgTokens, List.splitOn, List.splitOnP_nil, strtok_r]
  | cons c t ih =>
    by_cases hc : c = ';'
    · subst hc
      have e1 : cfgTokens (';' :: t) = cfgTokens t := by
        simp [cfgTokens, List.splitOn, List.splitOnP_cons]
      have e2 : strtok_r (';' :: t) ';' = strtok_r t ';' := by
        simp [strtok_r]
      rw [e1, e2]
      cases h : cfgTokens t with
      | nil => rw [h] at ih; exact ih
      | cons tok toks =>
        rw [h] at ih
        obtain ⟨rest, hr, ht, hl⟩ := ih
        exact ⟨rest, hr, ht, by simp; omega⟩
    · have h1 : (c == ';') = false := by simpa using hc
      have h2 : (c != ';') = true := by simpa using hc
      have e1 : cfgTokens (c :: t) = (c :: t.takeWhile (fun c => c != ';')) ::
          cfgTokens ((t.dropWhile (fun c => c != ';')).drop 1) := by
        unfold cfgTokens
        rw [splitOn_semicolon (c :: t)]
        simp only [List.takeWhile, List.dropWhile, h2]
        rw [List.filter_cons_of_pos (by simp)]
        congr 1
        cases hd : t.dropWhile (fun c => c != ';') with
        | nil => simp [List.splitOn, List.splitOnP_nil]
        | cons x u => simp
      rw [e1]
      refine ⟨(t.dropWhile (fun c => c != ';')).drop 1, ?_, rfl, ?_⟩
      · simp [strtok_r, h1, h2, List.takeWhile, List.dropWhile]
      · have : (t.dropWhile (fun c => c != ';')).length ≤ t.length :=
          (List.dropWhile_sublist _).length_le
        simp only [List.length_drop, List.length_cons]
        omega

theorem parseCfgLoop_eq (p : CStr → Option NodeAddr) :
    ∀ (fuel : Nat) (s : CStr), s.length < fuel →
      parseCfgLoop p fuel s =
        match parseTokens p (cfgTokens s) with
        | some l => .chain l
        | none => .error := by
  intro fuel
  induction fuel with
  | zero => intro s h; omega
  | succ fuel ih =>
    intro s hs
    have hk := strtok_r_tokens s
    unfold parseCfgLoop
    cases ht : cfgTokens s with
    | nil => rw [ht] at hk; simp [hk, parseTokens]
    | cons tok toks =>
      rw [ht] at hk
      obtain ⟨rest, hr, hrt, hl⟩ := hk
      simp only [hr, parseTokens]
      cases hrec : parseCfgRecord p tok with
      | none => rfl
      | some r =>
        simp only []
        rw [ih rest (by omega), hrt]
        cases parseTokens p toks <;> rfl

theorem parseCfgString_eq (p : CStr → Option NodeAddr) (s : CStr) :
    parseCfgString p s = (parseTokens p (cfgTokens s)).getD [] := by
  unfold parseCfgString
  rw [parseCfgLoop_eq p _ s (Nat.lt_succ_self _)]
  cases parseTokens p (cfgTokens s) <;> rfl

theorem encodeRecord_ne_nil (nodeid : Nat) (cfgAddr : NodeAddr) (n : RaftNode) :
    encodeRecord nodeid cfgAddr n ≠ [] := by
  unfold encodeRecord
  simp

theorem generateCfgLoop_eq (nodeid : Nat) (cfgAddr : NodeAddr) :
    ∀ (nodes : List RaftNode) (buf : CStr),
      (∀ n ∈ nodes, n.addition_committed = true → n.id ≠ nodeid → n.udata ≠ none) →
      generateCfgLoop nodeid cfgAddr nodes buf =
        some (appendRecords buf
          ((nodes.filter (fun n => n.addition_committed)).map (encodeRecord nodeid cfgAddr))) := by
  intro nodes
  induction nodes with
  | nil => intro buf _; simp [generateCfgLoop, appendRecords]
  | cons n rest ih =>
    intro buf h
    have hrest : ∀ m ∈ rest, m.addition_committed = true → m.id ≠ nodeid → m.udata ≠ none :=
      fun m hm => h m (List.mem_cons_of_mem _ hm)
    unfold generateCfgLoop
    by_cases hc : n.addition_committed = true
    · have hp : pickAddr nodeid cfgAddr n = some (nodeAddr nodeid cfgAddr n) := by
        unfold nodeAddr pickAddr
        by_cases hl : n.id = nodeid
        · simp [hl]
        · have hu := h n (List.mem_cons_self _ _) hc hl
          cases hud : n.udata with
          | none => exact absurd hud hu
          | some node => simp [hl]
      simp only [hc, Bool.not_true, Bool.false_eq_true, if_false, hp]
      rw [ih _ hrest]
      simp [appendRecords, List.filter_cons, hc, encodeRecord, catsnprintf, cfgRecordFmt]
    · have hc2 : n.addition_committed = false := by simpa using hc
      simp only [hc2, Bool.not_false, if_true]
      rw [ih _ hrest]
      simp [List.filter_cons, hc2]

theorem appendRecords_cons_buf (rs : List CStr) :
    ∀ buf : CStr, buf ≠ [] → appendRecords buf rs = buf ++ (rs.map (fun r => ';' :: r)).flatten := by
  induction rs with
  | nil => intro buf _; simp [appendRecords]
  | cons r rs ih =>
    intro buf hb
    have : appendRecords buf (r :: rs) = appendRecords (buf ++ (';' :: r)) rs := by
      simp [appendRecords, hb]
    rw [this, ih _ (by simp)]
    simp

theorem intercalate_cons (r : CStr) (rs : List CStr) :
    [';'].intercalate (r :: rs) = r ++ (rs.map (fun r => ';' :: r)).flatten := by
  induction rs generalizing r with
  | nil => simp [List.intercalate]
  | cons r2 rs ih =>
    have := ih r2
    simp only [List.intercalate, List.intersperse, List.flatten_cons] at this ⊢
    rw [this]
    simp

theorem appendRecords_nil (rs : List CStr) (h : ∀ r ∈ rs, r ≠ []) :
    appendRecords [] rs = [';'].intercalate rs := by
  cases rs with
  | nil => simp [appendRecords, List.intercalate]
  | cons r rs =>
    have hr : r ≠ [] := h r (List.mem_cons_self _ _)
    have : appendRecords [] (r :: rs) = appendRecords r rs := by
      simp [appendRecords]
    rw [this, appendRecords_cons_buf rs r hr, intercalate_cons]

theorem generateCfgString_eq (nodeid : Nat) (cfgAddr : NodeAddr) (nodes : List RaftNode)
    (h : ∀ n ∈ nodes, n.addition_committed = true → n.id ≠ nodeid → n.udata ≠ none) :
    generateCfgString nodeid cfgAddr nodes = some (encodeSpec nodeid cfgAddr nodes) := by
  unfold generateCfgString encodeSpec
  rw [generateCfgLoop_eq nodeid cfgAddr nodes [] h, appendRecords_nil]
  intro r hr
  obtain ⟨n, -, rfl⟩ := List.mem_map.1 hr
  exact encodeRecord_ne_nil _ _ _

theorem flagInt_mod (b : Bool) : flagInt b % 2 ^ 32 = flagInt b := by
  cases b <;> rfl

theorem parseCfgRecord_encodeRecord (p : CStr → Option NodeAddr) (nodeid : Nat)
    (cfgAddr : NodeAddr) (n : RaftNode) (hid : n.id < 2 ^ 32)
    (hp : p ((nodeAddr nodeid cfgAddr n).host ++ ':' :: fmtU (nodeAddr nodeid cfgAddr n).port) =
      some (nodeAddr nodeid cfgAddr n)) :
    parseCfgRecord p (encodeRecord nodeid cfgAddr n) = some (cfgEntryOf nodeid cfgAddr n) := by
  have e : encodeRecord nodeid cfgAddr n = fmtU n.id ++ ',' :: (fmtU (flagInt n.active) ++ ',' ::
      (fmtU (flagInt n.voting_committed) ++ ',' :: ((nodeAddr nodeid cfgAddr n).host ++ ':' ::
        fmtU (nodeAddr nodeid cfgAddr n).port))) := by
    simp [encodeRecord, List.append_assoc]
  rw [e]
  unfold parseCfgRecord
  simp only [consumeInt_fmtU, hp]
  simp only [Nat.mod_mod, flagInt_mod, Nat.mod_eq_of_lt hid, cfgEntryOf]

theorem encodeRecord_no_semicolon (nodeid : Nat) (cfgAddr : NodeAddr) (n : RaftNode)
    (hh : ∀ c ∈ (nodeAddr nodeid cfgAddr n).host, c ≠ ';') :
    ';' ∉ encodeRecord nodeid cfgAddr n := by
  intro hmem
  have hf : ∀ k, ';' ∉ fmtU k := fun k hk => (fmtU_digit k _ hk).2.2.1 rfl
  simp only [encodeRecord, List.mem_append, List.mem_singleton] at hmem
  rcases hmem with ((((((((h | h) | h) | h) | h) | h) | h) | h) | h)
  · exact hf _ h
  · exact absurd h (by decide)
  · exact hf _ h
  · exact absurd h (by decide)
  · exact hf _ h
  · exact absurd h (by decide)
  · exact hh _ h rfl
  · exact absurd h (by decide)
  · exact hf _ h

theorem cfgTokens_intercalate (rs : List CStr) (h1 : ∀ r ∈ rs, ';' ∉ r) (h2 : ∀ r ∈ rs, r ≠ []) :
    cfgTokens ([';'].intercalate rs) = rs := by
  unfold cfgTokens
  by_cases hrs : rs = []
  · subst hrs
    simp [List.intercalate, List.splitOn, List.splitOnP_nil]
  · rw [List.splitOn_intercalate rs ';' h1 hrs, List.filter_eq_self]
    intro r hr
    simpa using h2 r hr

theorem parseTokens_map (p : CStr → Option NodeAddr) (f : RaftNode → CStr)
    (g : RaftNode → SnapshotCfgEntry) :
    ∀ nodes : List RaftNode, (∀ n ∈ nodes, parseCfgRecord p (f n) = some (g n)) →
      parseTokens p (nodes.map f) = some (nodes.map g) := by
  intro nodes
  induction nodes with
  | nil => intro _; rfl
  | cons n rest ih =>
    intro h
    simp only [List.map_cons, parseTokens, h n (List.mem_cons_self _ _),
      ih (fun m hm => h m (List.mem_cons_of_mem _ hm))]

theorem consumeIntLoop_bad :
    ∀ (s : CStr) (v : Nat), (∃ c ∈ firstField s, isDigit c = false) →
      consumeIntLoop s v ',' = none := by
  intro s
  induction s with
  | nil => intro v h; simp [firstField] at h
  | cons c s ih =>
    intro v h
    unfold consumeIntLoop
    by_cases hc : c = ','
    · subst hc; simp [firstField] at h
    · have h2 : (c != ',') = true := by simpa using hc
      rw [if_neg hc]
      by_cases hd : isDigit c = true
      · rw [if_pos hd]
        apply ih
        obtain ⟨x, hx, hxd⟩ := h
        simp only [firstField, List.takeWhile, h2, List.mem_cons] at hx
        rcases hx with rfl | hx
        · rw [hd] at hxd; cases hxd
        · exact ⟨x, hx, hxd⟩
      · rw [if_neg hd]

theorem consumeIntLoop_rest :
    ∀ (s : CStr) (v w : Nat) (t : CStr), consumeIntLoop s v ',' = some (w, t) →
      t = afterComma s := by
  intro s
  induction s with
  | nil => intro v w t h; simp [consumeIntLoop] at h; simp [afterComma, h.2]
  | cons c s ih =>
    intro v w t h
    unfold consumeIntLoop at h
    by_cases hc : c = ','
    · subst hc
      simp at h
      simp [afterComma, h.2]
    · have h2 : (c != ',') = true := by simpa using hc
      rw [if_neg hc] at h
      by_cases hd : isDigit c = true
      · rw [if_pos hd] at h
        have := ih _ _ _ h
        rw [this]
        simp [afterComma, List.dropWhile, h2]
      · rw [if_neg hd] at h; cases h

theorem count_afterComma (s : CStr) : (afterComma s).count ',' = s.count ',' - 1 := by
  induction s with
  | nil => simp [afterComma]
  | cons c s ih =>
    by_cases hc : c = ','
    · subst hc; simp [afterComma]
    · have h2 : (c != ',') = true := by simpa using hc
      have e : afterComma (c :: s) = afterComma s := by simp [afterComma, List.dropWhile, h2]
      rw [e, ih, List.count_cons_of_ne (Ne.symm hc)]

theorem afterComma_of_count_zero (s : CStr) (h : s.count ',' = 0) : afterComma s = [] := by
  induction s with
  | nil => simp [afterComma]
  | cons c s ih =>
    by_cases hc : c = ','
    · subst hc; simp at h
    · have h2 : (c != ',') = true := by simpa using hc
      have e : afterComma (c :: s) = afterComma s := by simp [afterComma, List.dropWhile, h2]
      rw [List.count_cons_of_ne (Ne.symm hc)] at h
      rw [e, ih h]

theorem cfgAddrPart_of_missing (record : CStr) (h : missingDelimiter record) :
    cfgAddrPart record = [] := by
  unfold missingDelimiter at h
  unfold cfgAddrPart
  apply afterComma_of_count_zero
  rw [count_afterComma, count_afterComma]
  omega

theorem parseCfgRecord_bad (p : CStr → Option NodeAddr) (hp : p [] = none) (record : CStr)
    (h : badRecord p record) : parseCfgRecord p record = none := by
  unfold parseCfgRecord consumeInt
  cases h1 : consumeIntLoop record 0 ',' with
  | none => rfl
  | some r1 =>
    obtain ⟨v1, s1⟩ := r1
    have e1 := consumeIntLoop_rest _ _ _ _ h1
    subst e1
    simp only []
    cases h2 : consumeIntLoop (afterComma record) 0 ',' with
    | none => rfl
    | some r2 =>
      obtain ⟨v2, s2⟩ := r2
      have e2 := consumeIntLoop_rest _ _ _ _ h2
      subst e2
      simp only []
      cases h3 : consumeIntLoop (afterComma (afterComma record)) 0 ',' with
      | none => rfl
      | some r3 =>
        obtain ⟨v3, s3⟩ := r3
        have e3 := consumeIntLoop_rest _ _ _ _ h3
        subst e3
        simp only []
        have haddr : p (afterComma (afterComma (afterComma record))) = none := by
          rcases h with h | h | h
          · have := cfgAddrPart_of_missing record h
            unfold cfgAddrPart at this
            rw [this, hp]
          · obtain ⟨k, hk, hbad⟩ := h
            exfalso
            interval_cases k
            · rw [consumeIntLoop_bad record 0 hbad] at h1; cases h1
            · rw [consumeIntLoop_bad (afterComma record) 0 hbad] at h2; cases h2
            · rw [consumeIntLoop_bad (afterComma (afterComma record)) 0 hbad] at h3; cases h3
          · exact h
        rw [haddr]

theorem parseTokens_bad (p : CStr → Option NodeAddr) (record : CStr)
    (hrec : parseCfgRecord p record = none) :
    ∀ toks : List CStr, record ∈ toks → parseTokens p toks = none := by
  intro toks
  induction toks with
  | nil => intro h; cases h
  | cons t ts ih =>
    intro h
    unfold parseTokens
    cases ht : parseCfgRecord p t with
    | none => rfl
    | some r =>
      simp only []
      rcases List.mem_cons.1 h with h | h
      · subst h; rw [hrec] at ht; cases ht
      · rw [ih h]

theorem linkUp_cons (key val : CStr) (rest : List InfoStep) :
    linkUp (InfoStep.line key val :: rest) ↔
      (key = master_link_status ∧ val = ['u', 'p']) ∨ linkUp rest := by
  unfold linkUp
  rw [List.mem_cons, InfoStep.line.injEq]
  constructor
  · rintro (⟨h1, h2⟩ | h)
    · exact Or.inl ⟨h1.symm, h2.symm⟩
    · exact Or.inr h
  · rintro (⟨h1, h2⟩ | h)
    · exact Or.inl ⟨h1.symm, h2.symm⟩
    · exact Or.inr h

theorem syncDone_cons (key val : CStr) (rest : List InfoStep) :
    syncDone (InfoStep.line key val :: rest) ↔
      (key = master_sync_in_progress ∧ val = ['0']) ∨ syncDone rest := by
  unfold syncDone
  rw [List.mem_cons, InfoStep.line.injEq]
  constructor
  · rintro (⟨h1, h2⟩ | h)
    · exact Or.inl ⟨h1.symm, h2.symm⟩
    · exact Or.inr h
  · rintro (⟨h1, h2⟩ | h)
    · exact Or.inl ⟨h1.symm, h2.symm⟩
    · exact Or.inr h

theorem infoLoop_lines :
    ∀ (report : List InfoStep) (flags : Bool × Bool), InfoStep.failure ∉ report →
      infoLoop report flags =
        (flags.1 || decide (linkUp report), flags.2 && !decide (syncDone report)) := by
  intro report
  induction report with
  | nil => intro flags _; simp [infoLoop, linkUp, syncDone]
  | cons step rest ih =>
    intro flags hf
    have hrest : InfoStep.failure ∉ rest := fun h => hf (List.mem_cons_of_mem _ h)
    have hkeys : master_link_status ≠ master_sync_in_progress := by decide
    cases step with
    | failure => exact absurd (List.mem_cons_self _ _) hf
    | line key val =>
      unfold infoLoop
      simp only [RedisInfoIterate, String.toList]
      by_cases h1 : key = master_link_status ∧ val = ['u', 'p']
      · have h2 : ¬ (key = master_sync_in_progress ∧ val = ['0']) := by
          rintro ⟨hk, -⟩
          exact hkeys (h1.1.symm.trans hk)
        rw [if_pos h1, ih _ hrest]
        simp [linkUp_cons, syncDone_cons, h1, h2]
      · by_cases h2 : key = master_sync_in_progress ∧ val = ['0']
        · rw [if_neg h1, if_pos h2, ih _ hrest]
          simp [linkUp_cons, syncDone_cons, h1, h2]
        · rw [if_neg h1, if_neg h2, ih _ hrest]
          simp [linkUp_cons, syncDone_cons, h1, h2]

theorem encodeRecord_head (nodeid : Nat) (cfgAddr : NodeAddr) (n : RaftNode) :
    (encodeRecord nodeid cfgAddr n).head? ≠ some ';' := by
  intro h
  have hmem : ';' ∈ fmtU n.id := by
    cases hf : fmtU n.id with
    | nil => exact absurd hf (fmtU_ne_nil _)
    | cons c t =>
      simp only [encodeRecord, hf, List.cons_append, List.head?_cons, Option.some.injEq] at h
      rw [h]
      exact List.mem_cons_self _ _
  exact (fmtU_digit _ _ hmem).2.2.1 rfl

theorem encodeRecord_getLast (nodeid : Nat) (cfgAddr : NodeAddr) (n : RaftNode) :
    (encodeRecord nodeid cfgAddr n).getLast? ≠ some ';' := by
  intro h
  unfold encodeRecord at h
  rw [List.getLast?_append_of_ne_nil _ (fmtU_ne_nil _)] at h
  exact (fmtU_digit _ _ (List.mem_of_getLast?_eq_some h)).2.2.1 rfl

theorem flatten_sep_getLast (l : List CStr) :
    ∀ b : CStr, b ≠ [] → b.getLast? ≠ some ';' →
      (∀ r ∈ l, r ≠ [] ∧ r.getLast? ≠ some ';') →
      (b ++ (l.map (fun r => ';' :: r)).flatten).getLast? ≠ some ';' := by
  induction l with
  | nil => intro b _ hb _; simpa using hb
  | cons r l ih =>
    intro b _ _ hl
    obtain ⟨hr, hrl⟩ := hl r (List.mem_cons_self _ _)
    have e : b ++ (List.map (fun r => ';' :: r) (r :: l)).flatten =
        (b ++ ';' :: r) ++ (l.map (fun r => ';' :: r)).flatten := by
      simp
    rw [e]
    apply ih _ (by simp) _ (fun x hx => hl x (List.mem_cons_of_mem _ hx))
    rw [List.getLast?_append_of_ne_nil _ (List.cons_ne_nil _ _)]
    cases r with
    | nil => exact absurd rfl hr
    | cons x t => rw [List.getLast?_cons_cons]; exact hrl

theorem encodeSpec_head (nodeid : Nat) (cfgAddr : NodeAddr) (nodes : List RaftNode) :
    (encodeSpec nodeid cfgAddr nodes).head? ≠ some ';' := by
  unfold encodeSpec
  cases (nodes.filter (fun n => n.addition_committed)) with
  | nil => simp [List.intercalate]
  | cons n rest =>
    rw [List.map_cons, intercalate_cons, List.head?_append_of_ne_nil _ (encodeRecord_ne_nil _ _ _)]
    exact encodeRecord_head _ _ _

theorem encodeSpec_getLast (nodeid : Nat) (cfgAddr : NodeAddr) (nodes : List RaftNode) :
    (encodeSpec nodeid cfgAddr nodes).getLast? ≠ some ';' := by
  unfold encodeSpec
  cases (nodes.filter (fun n => n.addition_committed)) with
  | nil => simp [List.intercalate]
  | cons n rest =>
    rw [List.map_cons, intercalate_cons]
    apply flatten_sep_getLast _ _ (encodeRecord_ne_nil _ _ _) (encodeRecord_getLast _ _ _)
    intro r hr
    obtain ⟨m, -, rfl⟩ := List.mem_map.1 hr
    exact ⟨encodeRecord_ne_nil _ _ _, encodeRecord_getLast _ _ _⟩

/-! ## The configuration codec -/

/-- C1 (amended): for every registry in which every node's addition is committed,
every node other than the local one carries its udata, ids fit 32 bits, no host
contains `;`, and the address parser reads back each node's `host:port` text,
`parseCfgString` applied to the string `generateCfgString` returns yields the
(id, active, voting, host, port) tuples of the registry's nodes, in registry
order; the result is a non-`NULL` chain exactly when the registry is not empty. -/
theorem cfg_roundtrip (p : CStr → Option NodeAddr) (nodeid : Nat) (cfgAddr : NodeAddr)
    (nodes : List RaftNode)
    (hcommitted : ∀ n ∈ nodes, n.addition_committed = true)
    (hudata : ∀ n ∈ nodes, n.id ≠ nodeid → n.udata ≠ none)
    (hid : ∀ n ∈ nodes, n.id < 2 ^ 32)
    (hhost : ∀ n ∈ nodes, ∀ c ∈ (nodeAddr nodeid cfgAddr n).host, c ≠ ';')
    (hparse : ∀ n ∈ nodes,
      p ((nodeAddr nodeid cfgAddr n).host ++ ':' :: fmtU (nodeAddr nodeid cfgAddr n).port) =
        some (nodeAddr nodeid cfgAddr n)) :
    ∃ s, generateCfgString nodeid cfgAddr nodes = some s ∧
      parseCfgString p s = nodes.map (cfgEntryOf nodeid cfgAddr) ∧
      (parseCfgString p s ≠ [] ↔ nodes ≠ []) := by
  refine ⟨encodeSpec nodeid cfgAddr nodes,
    generateCfgString_eq nodeid cfgAddr nodes (fun n hn _ hl => hudata n hn hl), ?_⟩
  have hfilter : nodes.filter (fun n => n.addition_committed) = nodes :=
    List.filter_eq_self.2 hcommitted
  have hparsed : parseCfgString p (encodeSpec nodeid cfgAddr nodes) =
      nodes.map (cfgEntryOf nodeid cfgAddr) := by
    rw [parseCfgString_eq, encodeSpec, hfilter, cfgTokens_intercalate,
      parseTokens_map p _ (cfgEntryOf nodeid cfgAddr) nodes]
    · rfl
    · intro n hn
      exact parseCfgRecord_encodeRecord p nodeid cfgAddr n (hid n hn) (hparse n hn)
    · intro r hr
      obtain ⟨n, hn, rfl⟩ := List.mem_map.1 hr
      exact encodeRecord_no_semicolon nodeid cfgAddr n (hhost n hn)
    · intro r hr
      obtain ⟨n, -, rfl⟩ := List.mem_map.1 hr
      exact encodeRecord_ne_nil _ _ _
  refine ⟨hparsed, ?_⟩
  rw [hparsed]
  simp

/-- C1, at the registry of the local node and two peers: the encoded string
decodes to the three tuples. -/
theorem cfg_roundtrip_witness :
    ∃ s, generateCfgString 1 selfAddr [localNode, peerNode 2 true, peerNode 3 true] = some s ∧
      parseCfgString NodeAddrParse s =
        [localNode, peerNode 2 true, peerNode 3 true].map (cfgEntryOf 1 selfAddr) ∧
      (parseCfgString NodeAddrParse s ≠ [] ↔
        [localNode, peerNode 2 true, peerNode 3 true] ≠ []) :=
  cfg_roundtrip NodeAddrParse 1 selfAddr [localNode, peerNode 2 true, peerNode 3 true]
    (by decide) (by decide) (by decide) (by decide) (by decide)

/-- C1 fails at the registry with zero nodes: the encoder returns the empty
string, on which `parseCfgString` returns `NULL`, its failure value, and
`loadSnapshotInfo` reports `RR_ERROR` for such a `cfg` field. -/
theorem cfg_roundtrip_empty_registry :
    generateCfgString 1 selfAddr [] = some [] ∧
    parseCfgString NodeAddrParse [] = [] ∧
    (loadSnapshotFields NodeAddrParse [(cfg_name, [])] ⟨0, 0, []⟩).1 = .RR_ERROR := by
  decide

/-- C2 (amended): when the address parser rejects the empty text, every input
string in which a non-empty `;`-separated record is missing one of its three
`,` delimiters, has a non-digit in one of its three integer fields, or has an
address the parser rejects, makes `parseCfgString` return `NULL`, whatever
precedes or follows that record. -/
theorem parseCfgString_rejects (p : CStr → Option NodeAddr) (hp : p [] = none)
    (str record : CStr) (hmem : record ∈ str.splitOn ';') (hne : record ≠ [])
    (hbad : badRecord p record) :
    parseCfgString p str = [] := by
  rw [parseCfgString_eq, parseTokens_bad p record (parseCfgRecord_bad p hp record hbad)]
  · rfl
  · unfold cfgTokens
    exact List.mem_filter.2 ⟨hmem, by simpa using hne⟩

/-- C2, at a string whose second of three records lacks its address. -/
theorem parseCfgString_rejects_witness :
    "2,1".toList ∈ "1,1,1,h:1;2,1;3,0,1,g:3".toList.splitOn ';' ∧
    badRecord NodeAddrParse "2,1".toList ∧
    parseCfgString NodeAddrParse "1,1,1,h:1;2,1;3,0,1,g:3".toList = [] :=
  ⟨by decide, by decide,
    parseCfgString_rejects NodeAddrParse (by decide) "1,1,1,h:1;2,1;3,0,1,g:3".toList
      "2,1".toList (by decide) (by decide) (by decide)⟩

/-- C2 fails at a string with an empty record: the empty piece between the two
`;` has none of the three delimiters, yet `parseCfgString` returns the chain of
the two other records. -/
theorem parseCfgString_skips_empty_record :
    ([] : CStr) ∈ "1,1,1,h:1;;2,0,1,g:2".toList.splitOn ';' ∧
    missingDelimiter [] ∧
    parseCfgString NodeAddrParse "1,1,1,h:1;;2,0,1,g:2".toList =
      [⟨1, 1, 1, ⟨"h".toList, 1⟩⟩, ⟨2, 0, 1, ⟨"g".toList, 2⟩⟩] := by
  decide

/-- C3: for every registry whose committed nodes other than the local one carry
their udata, `generateCfgString` returns `encodeSpec`, exactly the records
`id,active,voting,host:port` of the nodes whose addition is committed, in
registry order and joined by single `;`, and the string neither starts nor ends
with `;`. -/
theorem generateCfgString_committed (nodeid : Nat) (cfgAddr : NodeAddr) (nodes : List RaftNode)
    (hudata : ∀ n ∈ nodes, n.addition_committed = true → n.id ≠ nodeid → n.udata ≠ none) :
    generateCfgString nodeid cfgAddr nodes = some (encodeSpec nodeid cfgAddr nodes) ∧
    (encodeSpec nodeid cfgAddr nodes).head? ≠ some ';' ∧
    (encodeSpec nodeid cfgAddr nodes).getLast? ≠ some ';' :=
  ⟨generateCfgString_eq nodeid cfgAddr nodes hudata, encodeSpec_head nodeid cfgAddr nodes,
    encodeSpec_getLast nodeid cfgAddr nodes⟩

/-- C3, at nodes 1, 2, 3 with the addition of node 2 uncommitted: the output
holds the records of nodes 1 and 3 only. -/
theorem generateCfgString_committed_witness :
    generateCfgString 1 selfAddr [localNode, peerNode 2 false, peerNode 3 true] =
      some "1,1,1,self:5001;3,1,1,peer:5003".toList :=
  (generateCfgString_committed 1 selfAddr [localNode, peerNode 2 false, peerNode 3 true]
    (by decide)).1.trans (by decide)

/-! ## Loading and creating snapshots -/

/-- C4, evaluated on a record whose `cfg` field comes before a corrupt
`last_included_term`: `strtoul` stops at `a`, `loadSnapshotInfo` still returns
`RR_OK`, and `loadSnapshot` calls `raft_begin_load_snapshot 12 0`, removes node
2, adds node 3 and calls `raft_end_load_snapshot`. -/
theorem loadSnapshot_corrupt_term :
    (strtoul "12abc".toList).2 ≠ [] ∧
    (loadSnapshotInfo NodeAddrParse (sampleCtx [localNode, peerNode 2 true]
      [(cfg_name, "3,1,1,peer:5003".toList), (last_included_term_name, "12abc".toList)])).1 =
        .RR_OK ∧
    loadSnapshot acceptingEngine NodeAddrParse 2 (sampleCtx [localNode, peerNode 2 true]
      [(cfg_name, "3,1,1,peer:5003".toList), (last_included_term_name, "12abc".toList)]) =
      .done ⟨⟨[localNode, ⟨3, true, true, false, false, some ⟨⟨"peer".toList, 5003⟩⟩⟩], 1, 5, 7⟩,
        selfAddr, true,
        .hash [(cfg_name, "3,1,1,peer:5003".toList), (last_included_term_name, "12abc".toList)],
        [.hgetall, .raft_begin_load_snapshot 12 0, .NodeFree ⟨⟨"peer".toList, 5002⟩⟩,
          .raft_remove_node 2, .NodeInit 3 ⟨"peer".toList, 5003⟩, .raft_add_node 3,
          .raft_node_set_active 3 1, .raft_end_load_snapshot]⟩ := by
  decide

/-- C5, evaluated on the registry 1 (local), 2, 3 and a configuration naming
node 4 only: after the load the registry holds nodes 1, 3 and 4, node 3 having
been skipped by the loop of `removeAllNodes` when node 2 was deleted. -/
theorem loadSnapshot_stale_node :
    loadSnapshot acceptingEngine NodeAddrParse 2
      (sampleCtx [localNode, peerNode 2 true, peerNode 3 true] sampleFields) =
      .done ⟨⟨[localNode, peerNode 3 true,
          ⟨4, true, false, false, false, some ⟨⟨"peer".toList, 5004⟩⟩⟩], 1, 5, 7⟩,
        selfAddr, true, .hash sampleFields,
        [.hgetall, .raft_begin_load_snapshot 12 9, .NodeFree ⟨⟨"peer".toList, 5002⟩⟩,
          .raft_remove_node 2, .NodeInit 4 ⟨"peer".toList, 5004⟩, .raft_add_non_voting_node 4,
          .raft_node_set_active 4 1, .raft_end_load_snapshot]⟩ := by
  decide

/-- C6: when `raft_begin_snapshot` returns a negative value, `performSnapshot`
returns `RR_ERROR` having made that one call, with the snapshot key as it was;
when it returns a non-negative value (and the committed nodes other than the
local one carry their udata), `performSnapshot` returns `RR_OK` having called
`raft_begin_snapshot`, the `HMSET` of term, index and configuration, and
`raft_end_snapshot`, in that order. -/
theorem performSnapshot_spec (E : Engine) (rr : RedisRaftCtx) :
    ((E.raft_begin_snapshot rr.raft).1 < 0 →
      performSnapshot E rr = .done (.RR_ERROR,
        { rr with raft := (E.raft_begin_snapshot rr.raft).2
                  calls := rr.calls ++ [.raft_begin_snapshot] })) ∧
    (0 ≤ (E.raft_begin_snapshot rr.raft).1 →
      (∀ n ∈ (E.raft_begin_snapshot rr.raft).2.nodes, n.addition_committed = true →
        n.id ≠ (E.raft_begin_snapshot rr.raft).2.nodeid → n.udata ≠ none) →
      performSnapshot E rr = .done (.RR_OK,
        { rr with
          raft := E.raft_end_snapshot (E.raft_begin_snapshot rr.raft).2
          snapshot_key := hmsetSnapshot rr.snapshot_key
            ((E.raft_begin_snapshot rr.raft).2.current_term % 2 ^ 32)
            ((E.raft_begin_snapshot rr.raft).2.last_applied_idx % 2 ^ 32)
            (encodeSpec (E.raft_begin_snapshot rr.raft).2.nodeid rr.config_addr
              (E.raft_begin_snapshot rr.raft).2.nodes)
          calls := rr.calls ++ [.raft_begin_snapshot,
            .hmset ((E.raft_begin_snapshot rr.raft).2.current_term % 2 ^ 32)
              ((E.raft_begin_snapshot rr.raft).2.last_applied_idx % 2 ^ 32)
              (encodeSpec (E.raft_begin_snapshot rr.raft).2.nodeid rr.config_addr
                (E.raft_begin_snapshot rr.raft).2.nodes),
            .raft_end_snapshot] })) := by
  constructor
  · intro h
    simp [performSnapshot, h]
  · intro h hud
    have hlt : ¬ (E.raft_begin_snapshot rr.raft).1 < 0 := not_lt.2 h
    simp [performSnapshot, hlt, storeSnapshotInfo, generateCfgString_eq _ _ _ hud]

/-- C6, at a server with two nodes: a refusing engine leaves the trace at the
one call and the key untouched, an accepting engine gives the three calls. -/
theorem performSnapshot_spec_witness :
    performSnapshot refusingEngine (sampleCtx [localNode, peerNode 2 true] sampleFields) =
      .done (.RR_ERROR, ⟨⟨[localNode, peerNode 2 true], 1, 5, 7⟩, selfAddr, true,
        .hash sampleFields, [.raft_begin_snapshot]⟩) ∧
    performSnapshot acceptingEngine (sampleCtx [localNode, peerNode 2 true] sampleFields) =
      .done (.RR_OK, ⟨⟨[localNode, peerNode 2 true], 1, 5, 7⟩, selfAddr, true,
        .hash [(last_included_term_name, "5".toList), (last_included_index_name, "7".toList),
          (cfg_name, "1,1,1,self:5001;2,1,1,peer:5002".toList)],
        [.raft_begin_snapshot, .hmset 5 7 "1,1,1,self:5001;2,1,1,peer:5002".toList,
          .raft_end_snapshot]⟩) :=
  ⟨((performSnapshot_spec refusingEngine
      (sampleCtx [localNode, peerNode 2 true] sampleFields)).1 (by decide)).trans (by decide),
    ((performSnapshot_spec acceptingEngine
      (sampleCtx [localNode, peerNode 2 true] sampleFields)).2 (by decide) (by decide)).trans
      (by decide)⟩

/-- C7: for every metadata record that `loadSnapshotInfo` reads as `RR_OK` with
a configuration, if `raft_begin_load_snapshot` returns non-zero then
`loadSnapshot` returns having made exactly the `HGETALL` and that call: no
registry node is removed or added and `raft_end_load_snapshot` is not called,
so the engine is in the state the refused call left it in. -/
theorem loadSnapshot_rejected (E : Engine) (p : CStr → Option NodeAddr) (fuel : Nat)
    (rr : RedisRaftCtx)
    (hok : (loadSnapshotInfo p rr).1 = .RR_OK)
    (hcfg : (loadSnapshotInfo p rr).2.1.cfg_entry ≠ [])
    (hrej : (E.raft_begin_load_snapshot rr.raft (loadSnapshotInfo p rr).2.1.last_included_term
      (loadSnapshotInfo p rr).2.1.last_included_index).1 ≠ 0) :
    loadSnapshot E p fuel rr = .done
      { rr with
        raft := (E.raft_begin_load_snapshot rr.raft (loadSnapshotInfo p rr).2.1.last_included_term
          (loadSnapshotInfo p rr).2.1.last_included_index).2
        calls := rr.calls ++ [.hgetall,
          .raft_begin_load_snapshot (loadSnapshotInfo p rr).2.1.last_included_term
            (loadSnapshotInfo p rr).2.1.last_included_index] } := by
  have hctx : (loadSnapshotInfo p rr).2.2 = rr.call .hgetall := by
    unfold loadSnapshotInfo
    cases rr.snapshot_key <;> rfl
  unfold loadSnapshot
  simp only [hok, hcfg, hctx, ne_eq, not_true_eq_false, or_self, if_false]
  have hraft : (rr.call .hgetall).raft = rr.raft := rfl
  rw [hraft]
  simp [hrej, RedisRaftCtx.call]

/-- C7, at a server with three nodes and a well-formed record, the engine
refusing: the registry after the call is the registry before it. -/
theorem loadSnapshot_rejected_witness :
    loadSnapshot refusingEngine NodeAddrParse 0
      (sampleCtx [localNode, peerNode 2 true, peerNode 3 true] sampleFields) =
      .done ⟨⟨[localNode, peerNode 2 true, peerNode 3 true], 1, 5, 7⟩, selfAddr, true,
        .hash sampleFields, [.hgetall, .raft_begin_load_snapshot 12 9]⟩ :=
  (loadSnapshot_rejected refusingEngine NodeAddrParse 0
    (sampleCtx [localNode, peerNode 2 true, peerNode 3 true] sampleFields)
    (by decide) (by decide) (by decide)).trans (by decide)

/-! ## The replication handshake -/

/-- C8: for every report made of key/value lines only, when the report has both
the line `master_link_status:up` and the line `master_sync_in_progress:0`,
`checkLoadSnapshotProgress` sends `SLAVEOF NO ONE`, runs `loadSnapshot` and
clears `loading_snapshot`; otherwise it returns having only sent the `INFO`
query, with `loading_snapshot` and the registry as they were. -/
theorem checkLoadSnapshotProgress_lines (E : Engine) (p : CStr → Option NodeAddr) (fuel : Nat)
    (report : List InfoStep) (rr : RedisRaftCtx) (hlines : InfoStep.failure ∉ report) :
    (linkUp report ∧ syncDone report →
      checkLoadSnapshotProgress E p fuel report rr =
        (loadSnapshot E p fuel ((rr.call .info_replication).call .slaveof_no_one)).bind
          fun rr2 => .done { rr2 with loading_snapshot := false }) ∧
    (¬ (linkUp report ∧ syncDone report) →
      checkLoadSnapshotProgress E p fuel report rr = .done (rr.call .info_replication)) := by
  unfold checkLoadSnapshotProgress
  rw [infoLoop_lines report _ hlines]
  constructor
  · rintro ⟨h1, h2⟩
    simp [h1, h2]
  · intro h
    have : ¬ ((false || decide (linkUp report)) = true ∧
        (true && !decide (syncDone report)) = false) := by
      simpa using h
    simp only [this, if_false]

/-- C8, at the two polls {up, sync in progress} then {up, sync done}: the first
poll only sends the `INFO` query, the second detaches and runs the load. -/
theorem checkLoadSnapshotProgress_lines_witness :
    checkLoadSnapshotProgress acceptingEngine NodeAddrParse 2 pollSyncing
      (sampleCtx [localNode, peerNode 2 true] sampleFields) =
      .done ⟨⟨[localNode, peerNode 2 true], 1, 5, 7⟩, selfAddr, true, .hash sampleFields,
        [.info_replication]⟩ ∧
    checkLoadSnapshotProgress acceptingEngine NodeAddrParse 2 pollSynced
      (sampleCtx [localNode, peerNode 2 true] sampleFields) =
      .done ⟨⟨[localNode, ⟨4, true, false, false, false, some ⟨⟨"peer".toList, 5004⟩⟩⟩], 1, 5, 7⟩,
        selfAddr, false, .hash sampleFields,
        [.info_replication, .slaveof_no_one, .hgetall, .raft_begin_load_snapshot 12 9,
          .NodeFree ⟨⟨"peer".toList, 5002⟩⟩, .raft_remove_node 2,
          .NodeInit 4 ⟨"peer".toList, 5004⟩, .raft_add_non_voting_node 4,
          .raft_node_set_active 4 1, .raft_end_load_snapshot]⟩ :=
  ⟨((checkLoadSnapshotProgress_lines acceptingEngine NodeAddrParse 2 pollSyncing
      (sampleCtx [localNode, peerNode 2 true] sampleFields) (by decide)).2 (by decide)).trans
      (by decide),
    ((checkLoadSnapshotProgress_lines acceptingEngine NodeAddrParse 2 pollSynced
      (sampleCtx [localNode, peerNode 2 true] sampleFields) (by decide)).1 (by decide)).trans
      (by decide)⟩

/-- C9, evaluated on a report whose iterator fails after the lines that show
the link up and the transfer done: `checkLoadSnapshotProgress` still sends
`SLAVEOF NO ONE`, runs `loadSnapshot` and clears `loading_snapshot`. -/
theorem checkLoadSnapshotProgress_failure_after_flags :
    checkLoadSnapshotProgress acceptingEngine NodeAddrParse 2
      [.line master_link_status "up".toList, .line master_sync_in_progress "0".toList, .failure]
      (sampleCtx [localNode] []) =
      .done ⟨⟨[localNode], 1, 5, 7⟩, selfAddr, false, .hash [],
        [.info_replication, .slaveof_no_one, .hgetall]⟩ := by
  decide

/-- C10 (amended): `handleLoadSnapshot`, `performSnapshot` and `handleCompact`
do not read `loading_snapshot`. In every state `handleLoadSnapshot` issues the
replicate-from-source command and sets the flag when the command is accepted;
`performSnapshot` and `handleCompact` behave the same whatever the flag is,
and whenever they return they have called `raft_begin_snapshot`; the create is
refused, with `RR_ERROR` and the error reply of `handleCompact`, exactly when
`raft_begin_snapshot` reports failure. -/
theorem snapshot_flag_not_consulted (E : Engine) (reply : SlaveofReply) (addr : NodeAddr)
    (rr : RedisRaftCtx) (b : Bool) :
    (handleLoadSnapshot reply addr rr).calls = rr.calls ++ [.slaveof addr.host addr.port] ∧
    ((handleLoadSnapshot reply addr rr).loading_snapshot =
      if reply = .accepted then true else rr.loading_snapshot) ∧
    handleLoadSnapshot reply addr { rr with loading_snapshot := b } =
      { handleLoadSnapshot reply addr rr with
        loading_snapshot := if reply = .accepted then true else b } ∧
    performSnapshot E { rr with loading_snapshot := b } =
      (performSnapshot E rr).map (fun res => (res.1, { res.2 with loading_snapshot := b })) ∧
    handleCompact E { rr with loading_snapshot := b } =
      (handleCompact E rr).map (fun rr1 => { rr1 with loading_snapshot := b }) ∧
    (∀ res, performSnapshot E rr = .done res →
      (∃ more, res.2.calls = rr.calls ++ Call.raft_begin_snapshot :: more) ∧
      (res.1 = .RR_ERROR ↔ (E.raft_begin_snapshot rr.raft).1 < 0)) ∧
    (∀ rr1, handleCompact E rr = .done rr1 →
      ∃ more, rr1.calls = rr.calls ++ Call.raft_begin_snapshot :: more ∧
        (Call.reply_with_error "ERR operation failed, nothing to compact?" ∈ more ↔
          (E.raft_begin_snapshot rr.raft).1 < 0) ∧
        (Call.reply_with_simple_string "OK" ∈ more ↔
          ¬ (E.raft_begin_snapshot rr.raft).1 < 0)) := by
  refine ⟨?_, ?_, ?_, ?_, ?_, ?_, ?_⟩
  · unfold handleLoadSnapshot
    by_cases h : reply = .null ∨ reply = .error <;> simp [h, RedisRaftCtx.call]
  · cases reply <;> simp [handleLoadSnapshot, RedisRaftCtx.call]
  · cases reply <;> simp [handleLoadSnapshot, RedisRaftCtx.call]
  · unfold performSnapshot Run.map Run.bind
    by_cases h : (E.raft_begin_snapshot rr.raft).1 < 0
    · simp [h]
    · simp only [h, if_false, storeSnapshotInfo]
      cases generateCfgString (E.raft_begin_snapshot rr.raft).2.nodeid rr.config_addr
        (E.raft_begin_snapshot rr.raft).2.nodes <;> simp
  · unfold handleCompact performSnapshot Run.map Run.bind
    by_cases h : (E.raft_begin_snapshot rr.raft).1 < 0
    · simp [h, RedisRaftCtx.call]
    · simp only [h, if_false, storeSnapshotInfo]
      cases generateCfgString (E.raft_begin_snapshot rr.raft).2.nodeid rr.config_addr
        (E.raft_begin_snapshot rr.raft).2.nodes <;> simp [RedisRaftCtx.call]
  · intro res hres
    unfold performSnapshot at hres
    by_cases h : (E.raft_begin_snapshot rr.raft).1 < 0
    · simp only [h, if_true] at hres
      injection hres with hres
      subst hres
      exact ⟨⟨[], rfl⟩, by simp [h]⟩
    · simp only [h, if_false, storeSnapshotInfo] at hres
      cases hg : generateCfgString (E.raft_begin_snapshot rr.raft).2.nodeid rr.config_addr
        (E.raft_begin_snapshot rr.raft).2.nodes with
      | none => rw [hg] at hres; cases hres
      | some cfg =>
        rw [hg] at hres
        injection hres with hres
        subst hres
        exact ⟨⟨[.hmset ((E.raft_begin_snapshot rr.raft).2.current_term % 2 ^ 32)
          ((E.raft_begin_snapshot rr.raft).2.last_applied_idx % 2 ^ 32) cfg, .raft_end_snapshot],
          by simp⟩, by simp [h]⟩
  · intro rr1 hres
    unfold handleCompact performSnapshot Run.bind at hres
    by_cases h : (E.raft_begin_snapshot rr.raft).1 < 0
    · simp only [h, if_true] at hres
      simp only [ne_eq, reduceCtorEq, not_false_eq_true, if_true] at hres
      injection hres with hres
      subst hres
      exact ⟨[.reply_with_error "ERR operation failed, nothing to compact?"],
        by simp [RedisRaftCtx.call], by simp [h], by simp [h]⟩
    · simp only [h, if_false, storeSnapshotInfo] at hres
      cases hg : generateCfgString (E.raft_begin_snapshot rr.raft).2.nodeid rr.config_addr
        (E.raft_begin_snapshot rr.raft).2.nodes with
      | none => rw [hg] at hres; cases hres
      | some cfg =>
        rw [hg] at hres
        simp only [ne_eq, not_true_eq_false, if_false] at hres
        injection hres with hres
        subst hres
        exact ⟨[.hmset ((E.raft_begin_snapshot rr.raft).2.current_term % 2 ^ 32)
          ((E.raft_begin_snapshot rr.raft).2.last_applied_idx % 2 ^ 32) cfg, .raft_end_snapshot,
          .reply_with_simple_string "OK"],
          by simp [RedisRaftCtx.call], by simp [h], by simp [h]⟩

/-- C10 fails in a state where a load is in progress: `handleLoadSnapshot`
issues the replicate-from-source command, `performSnapshot` begins, stores and
ends a snapshot, and `handleCompact` does the same and replies `OK`. -/
theorem snapshot_ops_during_load :
    (sampleCtx [localNode] []).loading_snapshot = true ∧
    (handleLoadSnapshot .accepted ⟨"peer".toList, 5002⟩ (sampleCtx [localNode] [])).calls =
      [.slaveof "peer".toList 5002] ∧
    performSnapshot acceptingEngine (sampleCtx [localNode] []) =
      .done (.RR_OK, ⟨⟨[localNode], 1, 5, 7⟩, selfAddr, true,
        .hash [(last_included_term_name, "5".toList), (last_included_index_name, "7".toList),
          (cfg_name, "1,1,1,self:5001".toList)],
        [.raft_begin_snapshot, .hmset 5 7 "1,1,1,self:5001".toList, .raft_end_snapshot]⟩) ∧
    handleCompact acceptingEngine (sampleCtx [localNode] []) =
      .done ⟨⟨[localNode], 1, 5, 7⟩, selfAddr, true,
        .hash [(last_included_term_name, "5".toList), (last_included_index_name, "7".toList),
          (cfg_name, "1,1,1,self:5001".toList)],
        [.raft_begin_snapshot, .hmset 5 7 "1,1,1,self:5001".toList, .raft_end_snapshot,
          .reply_with_simple_string "OK"]⟩ := by
  decide

/-! ## Lemmas for the forwarding code, the metadata fields and the entry cache -/

theorem toClientList_length : ∀ l : List redisReply, (toClientList l).length = l.length
  | [] => rfl
  | _ :: rest => by simp [toClientList, toClientList_length rest]

mutual
theorem hiredisReplyToModule_calls : ∀ r : redisReply, (∀ t, r ≠ .other t) →
    hiredisReplyToModule r = (.RR_OK, replyCalls (toClient r))
  | .string _, _ => rfl
  | .array element, _ => by
    simp only [hiredisReplyToModule, toClient, replyCalls, toClientList_length,
      hiredisReplyElements_calls element]
  | .integer _, _ => rfl
  | .nil, _ => rfl
  | .status _, _ => rfl
  | .error _, _ => rfl
  | .other t, h => absurd rfl (h t)
theorem hiredisReplyElements_calls : ∀ l : List redisReply,
    hiredisReplyElements l = replyCallsList (toClientList l)
  | [] => rfl
  | r :: rest => by
    cases r with
    | other t => simp [hiredisReplyElements, hiredisReplyToModule, toClientList, toClient,
        replyCallsList, replyCalls, hiredisReplyElements_calls rest]
    | string s => simp [hiredisReplyElements, hiredisReplyToModule, toClientList, toClient,
        replyCallsList, replyCalls, hiredisReplyElements_calls rest]
    | integer s => simp [hiredisReplyElements, hiredisReplyToModule, toClientList, toClient,
        replyCallsList, replyCalls, hiredisReplyElements_calls rest]
    | nil => simp [hiredisReplyElements, hiredisReplyToModule, toClientList, toClient,
        replyCallsList, replyCalls, hiredisReplyElements_calls rest]
    | status s => simp [hiredisReplyElements, hiredisReplyToModule, toClientList, toClient,
        replyCallsList, replyCalls, hiredisReplyElements_calls rest]
    | error s => simp [hiredisReplyElements, hiredisReplyToModule, toClientList, toClient,
        replyCallsList, replyCalls, hiredisReplyElements_calls rest]
    | array el =>
      have h := hiredisReplyToModule_calls (.array el) (fun t => by simp)
      simp [hiredisReplyElements, h, toClientList, replyCallsList,
        hiredisReplyElements_calls rest]
end

mutual
theorem pendingAfter_reply : ∀ (r : redisReply) (rest : List ModuleReply) (k : Nat),
    pendingAfter ((hiredisReplyToModule r).2 ++
      (if (hiredisReplyToModule r).1 ≠ .RR_OK then [ModuleReply.ReplyWithError bad_reply_msg]
        else []) ++ rest) (k + 1) = pendingAfter rest k
  | .string _, _, _ => by simp [hiredisReplyToModule, pendingAfter, announced]
  | .array element, rest, k => by
    have h := pendingAfter_elements element rest k
    simp only [hiredisReplyToModule, ne_eq, not_true_eq_false, if_false, List.append_nil,
      List.cons_append, pendingAfter, announced]
    simpa [Nat.add_comm] using h
  | .integer _, _, _ => by simp [hiredisReplyToModule, pendingAfter, announced]
  | .nil, _, _ => by simp [hiredisReplyToModule, pendingAfter, announced]
  | .status _, _, _ => by simp [hiredisReplyToModule, pendingAfter, announced]
  | .error _, _, _ => by simp [hiredisReplyToModule, pendingAfter, announced]
  | .other _, _, _ => by simp [hiredisReplyToModule, pendingAfter, announced]
theorem pendingAfter_elements : ∀ (l : List redisReply) (rest : List ModuleReply) (k : Nat),
    pendingAfter (hiredisReplyElements l ++ rest) (l.length + k) = pendingAfter rest k
  | [], _, _ => by simp [hiredisReplyElements]
  | r :: l, rest, k => by
    have h1 := pendingAfter_reply r (hiredisReplyElements l ++ rest) (l.length + k)
    have h2 := pendingAfter_elements l rest k
    have e : (r :: l).length + k = l.length + k + 1 := by simp; omega
    rw [e]
    simp only [hiredisReplyElements, List.append_assoc] at h1 ⊢
    rw [h1, h2]
end

theorem clientReplies_map (l : List ModuleReply) :
    clientReplies (l.map ProxyCall.reply ++ [ProxyCall.RaftReqFree]) = l := by
  induction l with
  | nil => rfl
  | cons c l ih => simp [clientReplies, ih]

theorem fieldKind_term {name : CStr} (h : fieldKind name = some .term) :
    cstr name = last_included_term_name := by
  unfold fieldKind at h
  by_cases h1 : cstr name = last_included_term_name
  · exact h1
  · rw [if_neg h1] at h
    by_cases h2 : cstr name = last_included_index_name
    · rw [if_pos h2] at h; cases h
    · rw [if_neg h2] at h
      by_cases h3 : name = cfg_name
      · rw [if_pos h3] at h; cases h
      · rw [if_neg h3] at h; cases h

theorem fieldKind_index {name : CStr} (h : fieldKind name = some .index) :
    cstr name ≠ last_included_term_name ∧ cstr name = last_included_index_name := by
  unfold fieldKind at h
  by_cases h1 : cstr name = last_included_term_name
  · rw [if_pos h1] at h; cases h
  · rw [if_neg h1] at h
    by_cases h2 : cstr name = last_included_index_name
    · exact ⟨h1, h2⟩
    · rw [if_neg h2] at h
      by_cases h3 : name = cfg_name
      · rw [if_pos h3] at h; cases h
      · rw [if_neg h3] at h; cases h

theorem fieldKind_cfg {name : CStr} (h : fieldKind name = some .cfg) :
    cstr name ≠ last_included_term_name ∧ cstr name ≠ last_included_index_name ∧
      name = cfg_name := by
  unfold fieldKind at h
  by_cases h1 : cstr name = last_included_term_name
  · rw [if_pos h1] at h; cases h
  · rw [if_neg h1] at h
    by_cases h2 : cstr name = last_included_index_name
    · rw [if_pos h2] at h; cases h
    · rw [if_neg h2] at h
      by_cases h3 : name = cfg_name
      · exact ⟨h1, h2, h3⟩
      · rw [if_neg h3] at h; cases h

theorem fieldKind_none {name : CStr} (h : fieldKind name = none) :
    cstr name ≠ last_included_term_name ∧ cstr name ≠ last_included_index_name ∧
      name ≠ cfg_name := by
  unfold fieldKind at h
  by_cases h1 : cstr name = last_included_term_name
  · rw [if_pos h1] at h; cases h
  · rw [if_neg h1] at h
    by_cases h2 : cstr name = last_included_index_name
    · rw [if_pos h2] at h; cases h
    · rw [if_neg h2] at h
      by_cases h3 : name = cfg_name
      · rw [if_pos h3] at h; cases h
      · exact ⟨h1, h2, h3⟩

theorem loadSnapshotFields_cons_unknown (p : CStr → Option NodeAddr) (f : CStr × CStr)
    (rest : List (CStr × CStr)) (md : SnapshotMetadata) (h : fieldKind f.1 = none) :
    loadSnapshotFields p (f :: rest) md = loadSnapshotFields p rest md := by
  obtain ⟨name, value⟩ := f
  obtain ⟨h1, h2, h3⟩ := fieldKind_none h
  rw [loadSnapshotFields]
  dsimp only
  rw [if_neg h1, if_neg h2, if_neg h3]

theorem loadSnapshotFields_cons_valid (p : CStr → Option NodeAddr) (f : CStr × CStr)
    (rest : List (CStr × CStr)) (md : SnapshotMetadata) (h : validField p f) :
    loadSnapshotFields p (f :: rest) md = loadSnapshotFields p rest (applyField p md f) := by
  obtain ⟨name, value⟩ := f
  unfold validField at h
  unfold applyField
  cases hk : fieldKind name with
  | none =>
    simp only [hk]
    exact loadSnapshotFields_cons_unknown p (name, value) rest md hk
  | some k =>
    simp only [hk] at h ⊢
    cases k with
    | term =>
      have h1 := fieldKind_term hk
      simp only at h
      rw [loadSnapshotFields]
      dsimp only
      rw [if_pos h1, if_neg (not_not.2 h)]
    | index =>
      obtain ⟨h1, h2⟩ := fieldKind_index hk
      simp only at h
      rw [loadSnapshotFields]
      dsimp only
      rw [if_neg h1, if_pos h2, if_neg (not_not.2 h)]
    | cfg =>
      obtain ⟨h1, h2, h3⟩ := fieldKind_cfg hk
      simp only at h
      rw [loadSnapshotFields]
      dsimp only
      rw [if_neg h1, if_neg h2, if_pos h3, if_neg h]

theorem loadSnapshotFields_filter (p : CStr → Option NodeAddr) :
    ∀ (fields : List (CStr × CStr)) (md : SnapshotMetadata),
      loadSnapshotFields p fields md = loadSnapshotFields p (fields.filter knownField) md := by
  intro fields
  induction fields with
  | nil => intro md; rfl
  | cons f rest ih =>
    intro md
    cases hk : fieldKind f.1 with
    | none =>
      have hf : knownField f = false := by simp [knownField, hk]
      rw [loadSnapshotFields_cons_unknown p f rest md hk, List.filter_cons_of_neg (by simp [hf])]
      exact ih md
    | some k =>
      have hf : knownField f = true := by simp [knownField, hk]
      rw [List.filter_cons_of_pos hf]
      obtain ⟨name, value⟩ := f
      rw [loadSnapshotFields, loadSnapshotFields]
      simp only [ih]

theorem loadSnapshotFields_valid (p : CStr → Option NodeAddr) :
    ∀ (fields : List (CStr × CStr)) (md : SnapshotMetadata),
      (∀ f ∈ fields, validField p f) →
      loadSnapshotFields p fields md = (.RR_OK, fields.foldl (applyField p) md) := by
  intro fields
  induction fields with
  | nil => intro md _; rfl
  | cons f rest ih =>
    intro md h
    rw [loadSnapshotFields_cons_valid p f rest md (h f (List.mem_cons_self _ _)),
      ih _ (fun g hg => h g (List.mem_cons_of_mem _ hg))]
    rfl

theorem applyField_comm (p : CStr → Option NodeAddr) (x y : CStr × CStr)
    (h : fieldKind x.1 = fieldKind y.1 → x = y) (md : SnapshotMetadata) :
    applyField p (applyField p md x) y = applyField p (applyField p md y) x := by
  by_cases hxy : x = y
  · rw [hxy]
  · have hne : fieldKind x.1 ≠ fieldKind y.1 := fun e => hxy (h e)
    unfold applyField
    cases hx : fieldKind x.1 with
    | none => simp
    | some kx =>
      cases hy : fieldKind y.1 with
      | none => simp
      | some ky =>
        rw [hx, hy] at hne
        cases kx <;> cases ky <;> first | exact absurd rfl hne | rfl

theorem decimal_foldl_mod (l : CStr) :
    ∀ a b : Nat, a % 2 ^ 64 = b % 2 ^ 64 →
      (l.foldl (fun v c => v * 10 + (c.toNat - '0'.toNat)) a) % 2 ^ 64 =
        (l.foldl (fun v c => v * 10 + (c.toNat - '0'.toNat)) b) % 2 ^ 64 := by
  induction l with
  | nil => intro a b h; exact h
  | cons c l ih =>
    intro a b h
    simp only [List.foldl_cons]
    apply ih
    have h' : a ≡ b [MOD 2 ^ 64] := h
    exact (h'.mul_right 10).add_right _

theorem consumeIntLoop_digits (d : Char) :
    ∀ (s : CStr) (v : Nat), v < 2 ^ 64 → (∀ c ∈ textBefore d s, isDigit c = true) →
      consumeIntLoop s v d =
        some (((textBefore d s).foldl (fun v c => v * 10 + (c.toNat - '0'.toNat)) v) % 2 ^ 64,
          textAfter d s) := by
  intro s
  induction s with
  | nil =>
    intro v hv _
    have hm : v % 2 ^ 64 = v := Nat.mod_eq_of_lt hv
    simp only [consumeIntLoop, textBefore, textAfter, List.takeWhile, List.dropWhile,
      List.foldl_nil, List.drop_nil, hm]
  | cons c s ih =>
    intro v hv h
    unfold consumeIntLoop
    by_cases hc : c = d
    · subst hc
      have hm : v % 2 ^ 64 = v := Nat.mod_eq_of_lt hv
      simp [textBefore, textAfter]
      omega
    · have h2 : (c != d) = true := by simpa using hc
      have hb : textBefore d (c :: s) = c :: textBefore d s := by
        simp [textBefore, List.takeWhile, h2]
      have ha : textAfter d (c :: s) = textAfter d s := by
        simp [textAfter, List.dropWhile, h2]
      have hd : isDigit c = true := h c (by rw [hb]; exact List.mem_cons_self _ _)
      rw [if_neg hc, if_pos hd,
        ih _ (Nat.mod_lt _ (by decide)) (fun x hx => h x (by rw [hb]; exact List.mem_cons_of_mem _ hx)),
        hb, ha, List.foldl_cons]
      congr 2
      apply decimal_foldl_mod
      rw [Nat.mod_mod, Nat.mod_add_mod]

theorem consumeIntLoop_nondigit (d : Char) :
    ∀ (s : CStr) (v : Nat), (∃ c ∈ textBefore d s, isDigit c = false) →
      consumeIntLoop s v d = none := by
  intro s
  induction s with
  | nil => intro v h; simp [textBefore] at h
  | cons c s ih =>
    intro v h
    unfold consumeIntLoop
    by_cases hc : c = d
    · subst hc; simp [textBefore] at h
    · have h2 : (c != d) = true := by simpa using hc
      rw [if_neg hc]
      by_cases hd : isDigit c = true
      · rw [if_pos hd]
        apply ih
        obtain ⟨x, hx, hxd⟩ := h
        simp only [textBefore, List.takeWhile, h2, List.mem_cons] at hx
        rcases hx with rfl | hx
        · rw [hd] at hxd; cases hxd
        · exact ⟨x, hx, hxd⟩
      · rw [if_neg hd]

theorem mod_add_ne (n s a b : Nat) (ha : a < n) (hb : b < n) (hab : a ≠ b) :
    (s + a) % n ≠ (s + b) % n := by
  intro h
  have h1 : s + a ≡ s + b [MOD n] := h
  have h2 : a % n = b % n := Nat.ModEq.add_left_cancel' s h1
  rw [Nat.mod_eq_of_lt ha, Nat.mod_eq_of_lt hb] at h2
  exact hab h2

theorem cacheWindow_length (c : EntryCache) : (cacheWindow c).length = c.len := by
  simp [cacheWindow]

theorem cacheWindow_getD (c : EntryCache) (k : Nat) (hk : k < c.len) :
    (cacheWindow c).getD k none = c.ptrs.getD ((c.start + k) % c.size) none := by
  simp [cacheWindow, List.getD_eq_getElem?_getD, List.getElem?_map, List.getElem?_range hk]

theorem EntryCacheGet_window (c : EntryCache) (k : Nat) :
    EntryCacheGet c (c.start_idx + k) = (cacheWindow c).getD k none := by
  unfold EntryCacheGet
  by_cases hk : k < c.len
  · rw [if_neg (by omega), cacheWindow_getD c k hk, Nat.add_sub_cancel_left]
  · rw [if_pos (by omega)]
    have : (cacheWindow c).length ≤ k := by rw [cacheWindow_length]; omega
    simp [List.getD_eq_getElem?_getD, List.getElem?_eq_none this]

theorem cacheWindow_congr (c1 c2 : EntryCache) (hlen : c1.len = c2.len)
    (h : ∀ k, k < c1.len →
      c1.ptrs.getD ((c1.start + k) % c1.size) none = c2.ptrs.getD ((c2.start + k) % c2.size) none) :
    cacheWindow c1 = cacheWindow c2 := by
  unfold cacheWindow
  rw [← hlen]
  apply List.map_congr_left
  intro k hk
  exact h k (List.mem_range.1 hk)

theorem EntryCacheGrow_size (c : EntryCache) (hlen : c.len ≤ c.size) :
    c.len < (EntryCacheGrow c).size := by
  show c.len < (if c.size = 0 then 1 else 2 * c.size)
  by_cases h0 : c.size = 0
  · rw [if_pos h0]; omega
  · rw [if_neg h0]; omega

theorem EntryCacheGrow_ptrs (c : EntryCache) (hlen : c.len ≤ c.size) :
    (EntryCacheGrow c).ptrs.length = (EntryCacheGrow c).size := by
  have h := EntryCacheGrow_size c hlen
  show (cacheWindow c ++ List.replicate ((EntryCacheGrow c).size - c.len) none).length = _
  rw [List.length_append, cacheWindow_length, List.length_replicate]
  omega

theorem EntryCacheGrow_window (c : EntryCache) (hlen : c.len ≤ c.size) :
    cacheWindow (EntryCacheGrow c) = cacheWindow c := by
  have hsize := EntryCacheGrow_size c hlen
  apply cacheWindow_congr (EntryCacheGrow c) c rfl
  intro k hk
  have hk' : k < c.len := hk
  rw [← cacheWindow_getD c k hk']
  show (cacheWindow c ++ List.replicate ((EntryCacheGrow c).size - c.len) none).getD
    ((0 + k) % (EntryCacheGrow c).size) none = _
  rw [Nat.zero_add, Nat.mod_eq_of_lt (by omega)]
  simp only [List.getD_eq_getElem?_getD]
  rw [List.getElem?_append_left (by rw [cacheWindow_length]; exact hk')]

theorem EntryCacheStore_window (c : EntryCache) (e : raft_entry_t)
    (hptrs : c.ptrs.length = c.size) (hlen : c.len < c.size) :
    cacheWindow (EntryCacheStore c e) = cacheWindow c ++ [some e] := by
  unfold cacheWindow EntryCacheStore
  simp only [List.range_succ, List.map_append, List.map_cons, List.map_nil]
  congr 1
  · apply List.map_congr_left
    intro k hk
    have hk' : k < c.len := List.mem_range.1 hk
    have hne : (c.start + c.len) % c.size ≠ (c.start + k) % c.size :=
      mod_add_ne c.size c.start c.len k hlen (by omega) (by omega)
    simp [List.getD_eq_getElem?_getD, List.getElem?_set_ne hne]
  · have hlt : (c.start + c.len) % c.size < c.ptrs.length := by
      rw [hptrs]; exact Nat.mod_lt _ (by omega)
    simp [List.getD_eq_getElem?_getD, List.getElem?_set_self hlt]

theorem EntryCacheStore_wf (c : EntryCache) (e : raft_entry_t)
    (hptrs : c.ptrs.length = c.size) (hlen : c.len < c.size)
    (hmem : c.entries_memsize = ((cacheWindow c).map slotSize).sum) :
    (EntryCacheStore c e).WF := by
  refine ⟨?_, ?_, ?_⟩
  · show (c.ptrs.set _ _).length = c.size
    rw [List.length_set]; exact hptrs
  · show c.len + 1 ≤ c.size
    omega
  · rw [EntryCacheStore_window c e hptrs hlen]
    show c.entries_memsize + e.data_len = _
    simp only [List.map_append, List.sum_append, List.map_cons, List.map_nil, List.sum_cons,
      List.sum_nil, Nat.add_zero, slotSize]
    rw [hmem]

theorem EntryCacheAppend_window (c : EntryCache) (hwf : c.WF) (e : raft_entry_t) :
    ∃ c1, EntryCacheAppend c e (c.start_idx + c.len) = some c1 ∧ c1.WF ∧
      c1.start_idx = c.start_idx ∧ c1.len = c.len + 1 ∧
      cacheWindow c1 = cacheWindow c ++ [some e] := by
  obtain ⟨hptrs, hlen, hmem⟩ := hwf
  unfold EntryCacheAppend
  rw [if_neg (not_not.2 rfl)]
  refine ⟨_, rfl, ?_⟩
  by_cases hfull : c.len = c.size
  · rw [if_pos hfull]
    have hgw := EntryCacheGrow_window c hlen
    have hgs : (EntryCacheGrow c).len < (EntryCacheGrow c).size := EntryCacheGrow_size c hlen
    have hgp := EntryCacheGrow_ptrs c hlen
    refine ⟨EntryCacheStore_wf _ e hgp hgs ?_, rfl, rfl, ?_⟩
    · rw [hgw]; exact hmem
    · rw [EntryCacheStore_window _ e hgp hgs, hgw]
  · rw [if_neg hfull]
    have hlt : c.len < c.size := by omega
    exact ⟨EntryCacheStore_wf c e hptrs hlt hmem, rfl, rfl, EntryCacheStore_window c e hptrs hlt⟩

theorem EntryCacheAppendAll_window :
    ∀ (es : List raft_entry_t) (c : EntryCache), c.WF →
      ∃ c1, EntryCacheAppendAll c es = some c1 ∧ c1.WF ∧ c1.start_idx = c.start_idx ∧
        c1.len = c.len + es.length ∧ cacheWindow c1 = cacheWindow c ++ es.map some := by
  intro es
  induction es with
  | nil => intro c hwf; exact ⟨c, rfl, hwf, rfl, rfl, by simp⟩
  | cons e es ih =>
    intro c hwf
    obtain ⟨c1, h1, hwf1, hs1, hl1, hw1⟩ := EntryCacheAppend_window c hwf e
    obtain ⟨c2, h2, hwf2, hs2, hl2, hw2⟩ := ih c1 hwf1
    refine ⟨c2, ?_, hwf2, hs2.trans hs1, ?_, ?_⟩
    · simp only [EntryCacheAppendAll, h1, h2]
    · rw [hl2, hl1, List.length_cons]; omega
    · rw [hw2, hw1]; simp

theorem EntryCacheEvictHead_window (c : EntryCache) (hwf : c.WF) (hpos : 0 < c.len) :
    cacheWindow (EntryCacheEvictHead c) = (cacheWindow c).tail := by
  obtain ⟨hptrs, hlen, -⟩ := hwf
  obtain ⟨m, hm⟩ : ∃ m, c.len = m + 1 := ⟨c.len - 1, by omega⟩
  unfold cacheWindow EntryCacheEvictHead
  simp only [hm, Nat.add_sub_cancel, List.range_succ_eq_map, List.map_cons, List.tail_cons,
    List.map_map]
  apply List.map_congr_left
  intro k hk
  have hk' : k < m := List.mem_range.1 hk
  have hne : (c.start + 0) % c.size ≠ (c.start + (k + 1)) % c.size :=
    mod_add_ne c.size c.start 0 (k + 1) (by omega) (by omega) (by omega)
  rw [Nat.add_zero] at hne
  show (c.ptrs.set (c.start % c.size) none).getD (((c.start + 1) % c.size + k) % c.size) none =
    c.ptrs.getD ((c.start + (k + 1)) % c.size) none
  rw [Nat.mod_add_mod, Nat.add_assoc, Nat.add_comm 1 k]
  simp only [List.getD_eq_getElem?_getD]
  rw [List.getElem?_set_ne hne]

theorem EntryCacheEvictHead_memsize (c : EntryCache) (hwf : c.WF) (hpos : 0 < c.len) :
    c.entries_memsize = slotSize (c.ptrs.getD (c.start % c.size) none) +
      ((cacheWindow (EntryCacheEvictHead c)).map slotSize).sum := by
  rw [EntryCacheEvictHead_window c hwf hpos, hwf.2.2]
  obtain ⟨m, hm⟩ : ∃ m, c.len = m + 1 := ⟨c.len - 1, by omega⟩
  unfold cacheWindow
  simp only [hm, List.range_succ_eq_map, List.map_cons, List.tail_cons, List.sum_cons,
    Nat.add_zero]

theorem EntryCacheEvictHead_wf (c : EntryCache) (hwf : c.WF) (hpos : 0 < c.len) :
    (EntryCacheEvictHead c).WF := by
  have hmem := EntryCacheEvictHead_memsize c hwf hpos
  obtain ⟨hptrs, hlen, -⟩ := hwf
  refine ⟨?_, ?_, ?_⟩
  · show (c.ptrs.set _ _).length = c.size
    rw [List.length_set]; exact hptrs
  · show c.len - 1 ≤ c.size
    omega
  · show c.entries_memsize - slotSize (c.ptrs.getD (c.start % c.size) none) = _
    omega

theorem cacheWindow_empty_memsize (c : EntryCache) (hwf : c.WF) (h0 : c.len = 0) :
    c.entries_memsize = 0 := by
  rw [hwf.2.2]
  simp [cacheWindow, h0]

theorem slotSize_le_sum (l : List (Option raft_entry_t)) (k : Nat) (hk : k < l.length) :
    slotSize (l.getD k none) ≤ (l.map slotSize).sum := by
  have hmem : l.getD k none ∈ l := by
    rw [List.getD_eq_getElem?_getD, List.getElem?_eq_getElem hk]
    exact List.getElem_mem hk
  exact List.single_le_sum (fun _ _ => Nat.zero_le _) _ (List.mem_map_of_mem slotSize hmem)

theorem compactLoop_spec (max_memory : Nat) :
    ∀ (fuel : Nat) (c : EntryCache) (n : Nat), c.WF → c.len ≤ fuel →
      (compactLoop fuel c max_memory n).2.WF ∧
      (compactLoop fuel c max_memory n).2.entries_memsize ≤ c.entries_memsize ∧
      ¬ (1 < (compactLoop fuel c max_memory n).2.len ∧
        max_memory < (compactLoop fuel c max_memory n).2.entries_memsize) ∧
      (compactLoop fuel c max_memory n).2.len ≤ c.len ∧
      (0 < c.len → 0 < (compactLoop fuel c max_memory n).2.len) ∧
      (compactLoop fuel c max_memory n).1 + (compactLoop fuel c max_memory n).2.len =
        n + c.len ∧
      (compactLoop fuel c max_memory n).2.start_idx + (compactLoop fuel c max_memory n).2.len =
        c.start_idx + c.len ∧
      cacheWindow (compactLoop fuel c max_memory n).2 =
        (cacheWindow c).drop (c.len - (compactLoop fuel c max_memory n).2.len) := by
  intro fuel
  induction fuel with
  | zero =>
    intro c n hwf hlen
    refine ⟨hwf, Nat.le_refl _, ?_, Nat.le_refl _, fun h => h, rfl, rfl, ?_⟩
    · show ¬ (1 < c.len ∧ max_memory < c.entries_memsize)
      omega
    · show cacheWindow c = (cacheWindow c).drop (c.len - c.len)
      simp
  | succ fuel ih =>
    intro c n hwf hlen
    unfold compactLoop
    by_cases hcond : 1 < c.len ∧ max_memory < c.entries_memsize
    · rw [if_pos hcond]
      have hpos : 0 < c.len := by omega
      have hwf1 := EntryCacheEvictHead_wf c hwf hpos
      have hmem := EntryCacheEvictHead_memsize c hwf hpos
      have hw := EntryCacheEvictHead_window c hwf hpos
      have hl1 : (EntryCacheEvictHead c).len = c.len - 1 := rfl
      have hs1 : (EntryCacheEvictHead c).start_idx = c.start_idx + 1 := rfl
      have hm1 : (EntryCacheEvictHead c).entries_memsize ≤ c.entries_memsize := by
        rw [hwf1.2.2]; omega
      obtain ⟨h1, h2, h3, hle, hp, h4, h5, h6⟩ :=
        ih (EntryCacheEvictHead c) (n + 1) hwf1 (by omega)
      refine ⟨h1, le_trans h2 hm1, h3, by omega, fun _ => hp (by omega), by omega, by omega, ?_⟩
      rw [h6, hw, List.drop_tail]
      congr 1
      omega
    · rw [if_neg hcond]
      refine ⟨hwf, Nat.le_refl _, hcond, Nat.le_refl _, fun h => h, rfl, rfl, ?_⟩
      show cacheWindow c = (cacheWindow c).drop (c.len - c.len)
      simp

/-! ## Forwarding to the leader -/

/-- C11 (amended): `hiredisReplyToModule` returns `RR_ERROR` exactly when the
tag of the top node is not one of string, array, integer, nil, status, error,
and then it emits nothing. For every other tree it returns `RR_OK` and emits
the client reply with the tags, payloads and element order of the leader reply,
each nested node of unknown tag being replaced, in its place, by the error
`ERR bad reply from leader`. -/
theorem hiredisReplyToModule_spec (r : redisReply) :
    ((hiredisReplyToModule r).1 = .RR_ERROR ↔ ∃ t, r = .other t) ∧
    (∀ t, hiredisReplyToModule (.other t) = (.RR_ERROR, [])) ∧
    ((∀ t, r ≠ .other t) → hiredisReplyToModule r = (.RR_OK, replyCalls (toClient r))) := by
  refine ⟨?_, fun t => rfl, hiredisReplyToModule_calls r⟩
  cases r <;> simp [hiredisReplyToModule]

/-- C11 fails at an array whose one element has an unknown tag: the tree has a
node of unknown tag, yet `hiredisReplyToModule` returns `RR_OK`, the element
being sent as an error. -/
theorem hiredisReplyToModule_nested_unknown :
    hasUnknownTag (.array [.other 9]) = true ∧
    hiredisReplyToModule (.array [.other 9]) =
      (.RR_OK, [.ReplyWithArray 1, .ReplyWithError bad_reply_msg]) := by
  decide

/-- C12: on a `NULL` reply `handleProxiedCommandResponse` sends the client the
one error `TIMEOUT no reply from leader` and releases the request; it sends
nothing else to the client and no command to the leader. -/
theorem handleProxiedCommandResponse_null :
    handleProxiedCommandResponse none =
      [.reply (.ReplyWithError "TIMEOUT no reply from leader".toList), .RaftReqFree] ∧
    ProxyCall.redisAsyncCommand ∉ handleProxiedCommandResponse none := by
  decide

/-- C20: for every invocation of `handleProxiedCommandResponse`, with no reply
or with any reply tree, the replies sent to the client form exactly one
complete reply value: every array header is followed by as many complete
values as it announces and nothing follows the top value. -/
theorem handleProxiedCommandResponse_one_reply (r : Option redisReply) :
    oneCompleteReply (clientReplies (handleProxiedCommandResponse r)) := by
  cases r with
  | none => decide
  | some reply =>
    unfold handleProxiedCommandResponse oneCompleteReply
    rw [clientReplies_map]
    have h := pendingAfter_reply reply [] 0
    simpa [pendingAfter] using h

/-! ## Reading metadata, the load directive and the node loops -/

/-- Field order does not matter for well-formed values: fields of unknown
names never change what `loadSnapshotInfo` returns; and for two records whose
fields of the three known names are the same name/value pairs in different
orders, each of the three names occurring at most once and each value being
well formed, `loadSnapshotInfo` returns the same result code and the same
metadata. -/
theorem loadSnapshotInfo_order (p : CStr → Option NodeAddr) (rr : RedisRaftCtx)
    (f1 f2 : List (CStr × CStr)) :
    (loadSnapshotInfo p { rr with snapshot_key := .hash f1 }).1 =
        (loadSnapshotInfo p { rr with snapshot_key := .hash (f1.filter knownField) }).1 ∧
    (loadSnapshotInfo p { rr with snapshot_key := .hash f1 }).2.1 =
        (loadSnapshotInfo p { rr with snapshot_key := .hash (f1.filter knownField) }).2.1 ∧
    ((f1.filter knownField).Perm (f2.filter knownField) →
      ((f1.filter knownField).map (fun f => fieldKind f.1)).Nodup →
      (∀ f ∈ f1, validField p f) →
      (loadSnapshotInfo p { rr with snapshot_key := .hash f1 }).1 =
          (loadSnapshotInfo p { rr with snapshot_key := .hash f2 }).1 ∧
        (loadSnapshotInfo p { rr with snapshot_key := .hash f1 }).2.1 =
          (loadSnapshotInfo p { rr with snapshot_key := .hash f2 }).2.1) := by
  have hfilter := loadSnapshotFields_filter p
  refine ⟨?_, ?_, ?_⟩
  · simp only [loadSnapshotInfo]
    rw [hfilter f1]
  · simp only [loadSnapshotInfo]
    rw [hfilter f1]
  · intro hperm hnodup hvalid
    have hv1 : ∀ f ∈ f1.filter knownField, validField p f :=
      fun f hf => hvalid f (List.mem_filter.1 hf).1
    have hv2 : ∀ f ∈ f2.filter knownField, validField p f :=
      fun f hf => hv1 f (hperm.mem_iff.2 hf)
    have hcomm : ∀ x ∈ f1.filter knownField, ∀ y ∈ f1.filter knownField,
        ∀ md, applyField p (applyField p md x) y = applyField p (applyField p md y) x :=
      fun x hx y hy md =>
        applyField_comm p x y (fun e => List.inj_on_of_nodup_map hnodup hx hy e) md
    have e : loadSnapshotFields p f1 ⟨0, 0, []⟩ = loadSnapshotFields p f2 ⟨0, 0, []⟩ := by
      rw [hfilter f1, hfilter f2, loadSnapshotFields_valid p _ _ hv1,
        loadSnapshotFields_valid p _ _ hv2, hperm.foldl_eq' hcomm]
    simp only [loadSnapshotInfo]
    rw [e]
    exact ⟨rfl, rfl⟩

/-- Field order at the record written term, index, cfg and the same pairs
read cfg first with a field of another name in between: same result code and
same metadata. -/
theorem loadSnapshotInfo_order_witness :
    (loadSnapshotInfo NodeAddrParse (sampleCtx [localNode] sampleFields)).1 =
      (loadSnapshotInfo NodeAddrParse (sampleCtx [localNode] shuffledFields)).1 ∧
    (loadSnapshotInfo NodeAddrParse (sampleCtx [localNode] sampleFields)).2.1 =
      (loadSnapshotInfo NodeAddrParse (sampleCtx [localNode] shuffledFields)).2.1 :=
  (loadSnapshotInfo_order NodeAddrParse (sampleCtx [localNode] []) sampleFields
    shuffledFields).2.2 (by decide) (by decide) (by decide)

/-- C13, evaluated on two records that hold the same two pairs, a valid `cfg`
and the term `12abc`, in the two orders: `loadSnapshotInfo` returns `RR_OK`
both times, with the configuration when `cfg` is read first and without it when
the term is read first, so `loadSnapshot` goes on to reconfigure the registry
in the first order and aborts in the second. -/
theorem loadSnapshotInfo_order_corrupt_term :
    loadSnapshotFields NodeAddrParse
      [(cfg_name, "4,1,0,peer:5004".toList), (last_included_term_name, "12abc".toList)]
      ⟨0, 0, []⟩ = (.RR_OK, ⟨12, 0, [⟨4, 1, 0, ⟨"peer".toList, 5004⟩⟩]⟩) ∧
    loadSnapshotFields NodeAddrParse
      [(last_included_term_name, "12abc".toList), (cfg_name, "4,1,0,peer:5004".toList)]
      ⟨0, 0, []⟩ = (.RR_OK, ⟨12, 0, []⟩) ∧
    (loadSnapshotInfo NodeAddrParse (sampleCtx [localNode]
      [(cfg_name, "4,1,0,peer:5004".toList), (last_included_term_name, "12abc".toList)])).2.1 ≠
    (loadSnapshotInfo NodeAddrParse (sampleCtx [localNode]
      [(last_included_term_name, "12abc".toList), (cfg_name, "4,1,0,peer:5004".toList)])).2.1 ∧
    loadSnapshot acceptingEngine NodeAddrParse 2 (sampleCtx [localNode]
      [(cfg_name, "4,1,0,peer:5004".toList), (last_included_term_name, "12abc".toList)]) =
      .done ⟨⟨[localNode, ⟨4, true, false, false, false, some ⟨⟨"peer".toList, 5004⟩⟩⟩], 1, 5, 7⟩,
        selfAddr, true,
        .hash [(cfg_name, "4,1,0,peer:5004".toList), (last_included_term_name, "12abc".toList)],
        [.hgetall, .raft_begin_load_snapshot 12 0, .NodeInit 4 ⟨"peer".toList, 5004⟩,
          .raft_add_non_voting_node 4, .raft_node_set_active 4 1, .raft_end_load_snapshot]⟩ ∧
    loadSnapshot acceptingEngine NodeAddrParse 2 (sampleCtx [localNode]
      [(last_included_term_name, "12abc".toList), (cfg_name, "4,1,0,peer:5004".toList)]) =
      .done ⟨⟨[localNode], 1, 5, 7⟩, selfAddr, true,
        .hash [(last_included_term_name, "12abc".toList), (cfg_name, "4,1,0,peer:5004".toList)],
        [.hgetall]⟩ := by
  decide

/-- C14: after `handleLoadSnapshot` the flag `loading_snapshot` is true when
the host store accepted the replicate-from-source command and is what it was
when the reply is `NULL` or an error; the one command is recorded and nothing
else of the state changes. -/
theorem handleLoadSnapshot_spec (reply : SlaveofReply) (addr : NodeAddr) (rr : RedisRaftCtx) :
    handleLoadSnapshot reply addr rr =
      { rr with
        loading_snapshot := if reply = .accepted then true else rr.loading_snapshot
        calls := rr.calls ++ [.slaveof addr.host addr.port] } := by
  cases reply <;> simp [handleLoadSnapshot, RedisRaftCtx.call]

/-- C17 (amended): `consumeInt s d` returns `NULL` when a character that is
not a digit comes before the first `d`, or before the end of `s` when `d` does
not occur. Otherwise it succeeds: the value is the decimal value of the digits
before the first `d`, reduced modulo 2^64, and the position is the character
after that `d`, or the end of the string when `d` does not occur. -/
theorem consumeInt_spec (s : CStr) (d : Char) :
    ((∃ c ∈ textBefore d s, isDigit c = false) → consumeInt s d = none) ∧
    ((∀ c ∈ textBefore d s, isDigit c = true) →
      consumeInt s d = some (decimalValue (textBefore d s) % 2 ^ 64, textAfter d s)) ∧
    (d ∉ s → textBefore d s = s ∧ textAfter d s = []) := by
  refine ⟨consumeIntLoop_nondigit d s 0, ?_, ?_⟩
  · intro h
    exact consumeIntLoop_digits d s 0 (by decide) h
  · intro hd
    have hall : ∀ c ∈ s, (c != d) = true := by
      intro c hc
      have : c ≠ d := fun e => hd (e ▸ hc)
      simpa using this
    have hb : textBefore d s = s := List.takeWhile_eq_self_iff.2 hall
    have hdrop : s.dropWhile (fun c => c != d) = [] := List.dropWhile_eq_nil_iff.2 hall
    exact ⟨hb, by simp [textAfter, hdrop]⟩

/-- C17 fails at a string of digits without the delimiter: `consumeInt`
succeeds with the value 12 and the position at the end of the string. -/
theorem consumeInt_without_delimiter :
    ',' ∉ "12".toList ∧ consumeInt "12".toList ',' = some (12, []) := by
  decide

/-- C18, evaluated on the registry 1 (local), 2, 3: `removeAllNodes` removes
node 2 and returns with node 3 still registered. -/
theorem removeAllNodes_skips :
    removeAllNodes (sampleCtx [localNode, peerNode 2 true, peerNode 3 true] []) =
      .done ⟨⟨[localNode, peerNode 3 true], 1, 5, 7⟩, selfAddr, true, .hash [],
        [.NodeFree ⟨⟨"peer".toList, 5002⟩⟩, .raft_remove_node 2]⟩ := by
  decide

/-- C19, evaluated on a configuration whose first entry is the local id:
whatever the number of steps allowed, `loadSnapshotNodes` has not returned. -/
theorem loadSnapshotNodes_local_id (fuel : Nat) :
    loadSnapshotNodes fuel (sampleCtx [localNode] [])
      [⟨1, 1, 1, selfAddr⟩, ⟨2, 1, 1, ⟨"peer".toList, 5002⟩⟩] = .fuel := by
  induction fuel with
  | zero => rfl
  | succ fuel ih =>
    rw [loadSnapshotNodes]
    · simpa [sampleCtx] using ih

/-! ## The entry cache -/

/-- C15: for every well-formed cache and every sequence of valid appends, each
at `start_idx + len`, the appends succeed, also when the backing array grows or
the ring wraps; afterwards `EntryCacheGet` returns at every index of the window
the entry that was appended there (the entries cached before keep their
answers) and reports a miss at every index outside the window; an append at an
index other than `start_idx + len` is rejected and stores nothing. -/
theorem EntryCache_append_get (c : EntryCache) (hwf : c.WF) (es : List raft_entry_t) :
    (∃ c1, EntryCacheAppendAll c es = some c1 ∧
      c1.start_idx = c.start_idx ∧ c1.len = c.len + es.length ∧
      (∀ j, j < c.len → EntryCacheGet c1 (c.start_idx + j) = EntryCacheGet c (c.start_idx + j)) ∧
      (∀ k, k < es.length → EntryCacheGet c1 (c.start_idx + c.len + k) = es[k]?) ∧
      (∀ idx, idx < c1.start_idx ∨ c1.start_idx + c1.len ≤ idx → EntryCacheGet c1 idx = none)) ∧
    (∀ e idx, idx ≠ c.start_idx + c.len → EntryCacheAppend c e idx = none) := by
  constructor
  · obtain ⟨c1, h1, -, hs, hl, hw⟩ := EntryCacheAppendAll_window es c hwf
    refine ⟨c1, h1, hs, hl, ?_, ?_, ?_⟩
    · intro j hj
      rw [← hs, EntryCacheGet_window c1 j, hs, EntryCacheGet_window c j, hw]
      simp only [List.getD_eq_getElem?_getD]
      rw [List.getElem?_append_left (by rw [cacheWindow_length]; exact hj)]
    · intro k hk
      rw [← hs, Nat.add_assoc, EntryCacheGet_window c1 (c.len + k), hw]
      simp only [List.getD_eq_getElem?_getD]
      rw [List.getElem?_append_right (by rw [cacheWindow_length]; omega), cacheWindow_length,
        Nat.add_sub_cancel_left, List.getElem?_map, List.getElem?_eq_getElem hk]
      rfl
    · intro idx hidx
      unfold EntryCacheGet
      rw [if_pos hidx]
  · intro e idx hidx
    unfold EntryCacheAppend
    rw [if_pos hidx]

/-- C15, at a full cache of two slots whose window wraps: three appends grow
the array twice, and every index of the window answers with its entry. -/
theorem EntryCache_append_get_witness :
    EntryCacheAppendAll wrappedCache [⟨9, 5⟩, ⟨10, 6⟩, ⟨11, 1⟩] =
      some ⟨8, 5, 7, 0, 42, [some ⟨7, 10⟩, some ⟨8, 20⟩, some ⟨9, 5⟩, some ⟨10, 6⟩,
        some ⟨11, 1⟩, none, none, none]⟩ ∧
    (∃ c1, EntryCacheAppendAll wrappedCache [⟨9, 5⟩, ⟨10, 6⟩, ⟨11, 1⟩] = some c1 ∧
      c1.start_idx = wrappedCache.start_idx ∧ c1.len = wrappedCache.len + 3 ∧
      (∀ j, j < wrappedCache.len → EntryCacheGet c1 (wrappedCache.start_idx + j) =
        EntryCacheGet wrappedCache (wrappedCache.start_idx + j)) ∧
      (∀ k, k < 3 → EntryCacheGet c1 (wrappedCache.start_idx + wrappedCache.len + k) =
        [(⟨9, 5⟩ : raft_entry_t), ⟨10, 6⟩, ⟨11, 1⟩][k]?) ∧
      (∀ idx, idx < c1.start_idx ∨ c1.start_idx + c1.len ≤ idx →
        EntryCacheGet c1 idx = none)) :=
  ⟨by decide, (EntryCache_append_get wrappedCache (by decide) [⟨9, 5⟩, ⟨10, 6⟩, ⟨11, 1⟩]).1⟩

/-- C16: for every well-formed cache and every budget, `EntryCacheCompact`
evicts only from the head (the entries that stay keep their indices and
answers), never increases the byte total and returns the number of entries
evicted. On return the byte total is at most the budget when the newest entry
does not alone exceed the budget; when it does, exactly that entry remains
cached. -/
theorem EntryCacheCompact_spec (c : EntryCache) (hwf : c.WF) (max_memory : Nat) :
    (EntryCacheCompact c max_memory).2.WF ∧
    (EntryCacheCompact c max_memory).2.entries_memsize ≤ c.entries_memsize ∧
    (EntryCacheCompact c max_memory).1 + (EntryCacheCompact c max_memory).2.len = c.len ∧
    (EntryCacheCompact c max_memory).2.start_idx =
      c.start_idx + (EntryCacheCompact c max_memory).1 ∧
    (∀ idx, (EntryCacheCompact c max_memory).2.start_idx ≤ idx →
      EntryCacheGet (EntryCacheCompact c max_memory).2 idx = EntryCacheGet c idx) ∧
    (∀ idx, idx < (EntryCacheCompact c max_memory).2.start_idx →
      EntryCacheGet (EntryCacheCompact c max_memory).2 idx = none) ∧
    (slotSize (EntryCacheGet c (c.start_idx + c.len - 1)) ≤ max_memory →
      (EntryCacheCompact c max_memory).2.entries_memsize ≤ max_memory) ∧
    (max_memory < slotSize (EntryCacheGet c (c.start_idx + c.len - 1)) →
      (EntryCacheCompact c max_memory).2.len = 1 ∧
      (EntryCacheCompact c max_memory).2.start_idx = c.start_idx + c.len - 1 ∧
      (EntryCacheCompact c max_memory).1 = c.len - 1 ∧
      (EntryCacheCompact c max_memory).2.entries_memsize =
        slotSize (EntryCacheGet c (c.start_idx + c.len - 1))) := by
  obtain ⟨h1, h2, h3, hle, hp, h4, h5, h6⟩ :=
    compactLoop_spec max_memory c.len c 0 hwf (Nat.le_refl _)
  have h3' : ¬ (1 < (EntryCacheCompact c max_memory).2.len ∧
      max_memory < (EntryCacheCompact c max_memory).2.entries_memsize) := h3
  have hle' : (EntryCacheCompact c max_memory).2.len ≤ c.len := hle
  have hp' : 0 < c.len → 0 < (EntryCacheCompact c max_memory).2.len := hp
  have h4' : (EntryCacheCompact c max_memory).1 + (EntryCacheCompact c max_memory).2.len =
      c.len := by
    have := h4
    unfold EntryCacheCompact
    omega
  have h5' : (EntryCacheCompact c max_memory).2.start_idx + (EntryCacheCompact c max_memory).2.len =
      c.start_idx + c.len := h5
  have h6' : cacheWindow (EntryCacheCompact c max_memory).2 =
      (cacheWindow c).drop (c.len - (EntryCacheCompact c max_memory).2.len) := h6
  have hmemr := h1.2.2
  have hmemr' : (EntryCacheCompact c max_memory).2.entries_memsize =
      ((cacheWindow (EntryCacheCompact c max_memory).2).map slotSize).sum := hmemr
  have hlast : 0 < c.len →
      (cacheWindow (EntryCacheCompact c max_memory).2).getD
        ((EntryCacheCompact c max_memory).2.len - 1) none =
        EntryCacheGet c (c.start_idx + c.len - 1) := by
    intro hpos
    have hr := hp' hpos
    have e : c.start_idx + c.len - 1 = c.start_idx + (c.len - 1) := by omega
    rw [e, EntryCacheGet_window, h6']
    simp only [List.getD_eq_getElem?_getD, List.getElem?_drop]
    congr 2
    omega
  have hnone : c.len = 0 → EntryCacheGet c (c.start_idx + c.len - 1) = none := by
    intro h0
    unfold EntryCacheGet
    rw [if_pos (by omega)]
  have hge : 0 < c.len → slotSize (EntryCacheGet c (c.start_idx + c.len - 1)) ≤
      (EntryCacheCompact c max_memory).2.entries_memsize := by
    intro hpos
    rw [← hlast hpos, hmemr']
    apply slotSize_le_sum
    rw [cacheWindow_length]
    have := hp' hpos
    omega
  have hone : (EntryCacheCompact c max_memory).2.len = 1 → 0 < c.len →
      (EntryCacheCompact c max_memory).2.entries_memsize =
        slotSize (EntryCacheGet c (c.start_idx + c.len - 1)) := by
    intro hl hpos
    have hlen1 : (cacheWindow (EntryCacheCompact c max_memory).2).length = 1 := by
      rw [cacheWindow_length]; exact hl
    have hl' := hlast hpos
    rw [hl] at hl'
    rw [hmemr', ← hl']
    match hw : cacheWindow (EntryCacheCompact c max_memory).2, hlen1 with
    | [x], _ => simp
  refine ⟨h1, h2, h4', by omega, ?_, ?_, ?_, ?_⟩
  · intro idx hidx
    obtain ⟨k, rfl⟩ : ∃ k, idx = (EntryCacheCompact c max_memory).2.start_idx + k :=
      ⟨idx - (EntryCacheCompact c max_memory).2.start_idx, by omega⟩
    rw [EntryCacheGet_window, h6']
    have e : (EntryCacheCompact c max_memory).2.start_idx + k =
        c.start_idx + ((c.len - (EntryCacheCompact c max_memory).2.len) + k) := by omega
    rw [e, EntryCacheGet_window]
    simp only [List.getD_eq_getElem?_getD, List.getElem?_drop]
  · intro idx hidx
    unfold EntryCacheGet
    rw [if_pos (Or.inl hidx)]
  · intro hsmall
    by_cases hpos : 0 < c.len
    · by_cases hl : (EntryCacheCompact c max_memory).2.len = 1
      · rw [hone hl hpos]; exact hsmall
      · have hr := hp' hpos
        have : 1 < (EntryCacheCompact c max_memory).2.len := by omega
        by_contra hbig
        exact h3' ⟨this, by omega⟩
    · have h0 : (EntryCacheCompact c max_memory).2.len = 0 := by omega
      have hzero := cacheWindow_empty_memsize (EntryCacheCompact c max_memory).2 h1 h0
      omega
  · intro hbig
    have hpos : 0 < c.len := by
      by_contra h0
      rw [hnone (by omega)] at hbig
      simp [slotSize] at hbig
    have hr := hp' hpos
    have hg := hge hpos
    have hl : (EntryCacheCompact c max_memory).2.len = 1 := by
      by_contra hne
      exact h3' ⟨by omega, by omega⟩
    exact ⟨hl, by omega, by omega, hone hl hpos⟩

/-- C16, at the wrapped cache of entries of 10 and 20 bytes: with a budget of
25 bytes the head is evicted and the entry of index 8 stays, within the
budget; with a budget of 5 bytes, which the newest entry alone exceeds, exactly
that entry remains; and a cache whose single entry of 10 bytes exceeds the
budget of 5 bytes is left as it is. -/
theorem EntryCacheCompact_spec_witness :
    EntryCacheCompact wrappedCache 25 = (1, ⟨2, 1, 8, 0, 20, [some ⟨8, 20⟩, none]⟩) ∧
    (EntryCacheCompact wrappedCache 25).2.entries_memsize ≤ 25 ∧
    EntryCacheCompact wrappedCache 5 = (1, ⟨2, 1, 8, 0, 20, [some ⟨8, 20⟩, none]⟩) ∧
    (EntryCacheCompact wrappedCache 5).2.len = 1 ∧
    EntryCacheCompact ⟨2, 1, 7, 0, 10, [some ⟨7, 10⟩, none]⟩ 5 =
      (0, ⟨2, 1, 7, 0, 10, [some ⟨7, 10⟩, none]⟩) :=
  ⟨by decide,
    (EntryCacheCompact_spec wrappedCache (by decide) 25).2.2.2.2.2.2.1 (by decide),
    by decide,
    ((EntryCacheCompact_spec wrappedCache (by decide) 5).2.2.2.2.2.2.2 (by decide)).1,
    by decide⟩

end RedisRaft
